import Mathlib

/-!
Verification development for the `operation-queue` package.

The source (`src/OperationQueue.ts`) is a single class `OperationQueue` whose
state is a pending list of entries, a suspended flag, two semaphore gates
(current / all) and a dependency map.  Its behaviour is asynchronous
JavaScript; we embed it as a small-step transition system over explicit
system states:

* every synchronous segment of the code (the part of a method that runs
  between two `await` suspension points) becomes one atomic transition;
* the event-loop nondeterminism (when a started operation finishes, when a
  ready continuation is scheduled) becomes nondeterministic choice of the
  next event;
* an `enqueue`d operation is represented by its predetermined behaviour:
  either it enters flight and later completes with a result or an error
  (`OpKind.ret`), or it throws synchronously when invoked (`OpKind.throwSync`);
* a promise settlement is recorded in a global `settled` log, an operation
  start (the call of `operation()`) in a global `started` log.

The `Semaphore` class comes from the workspace package `semaphore`, whose
source is not part of this repository's `src/`; its behaviour (a binary
gate that is either signalled, letting waiters pass through immediately, or
reset, blocking waiters until the next signal, with one-shot waiter promises)
is modelled from the spec, sections 3 and 4.3.  Everything else is a direct
translation of `src/OperationQueue.ts` and `src/types.ts`.
-/

deriving instance DecidableEq for Except

namespace OpQueue

/-- Translation of the enum `DependencyMode` from `src/types.ts`. -/
inductive DependencyMode
  | waitAll
  | waitCurrent
  | interleave
deriving DecidableEq, Repr

/-- The two semaphore gates owned by a queue: `currentSemaphore` and `allSemaphore`. -/
inductive GateKind
  | current
  | all
deriving DecidableEq, Repr

/-- Predetermined behaviour of one enqueued operation `() => T | Promise T`.
`ret o` is an operation that starts (possibly returning a promise, possibly a
plain value) and eventually completes with outcome `o` (`Except.ok` for a
resolved value, `Except.error` for an asynchronous rejection); `throwSync e`
is an operation that throws `e` synchronously when it is invoked. -/
inductive OpKind
  | ret (outcome : Except Nat Nat)
  | throwSync (e : Nat)
deriving DecidableEq, Repr

/-- Boolean test for the `ret` shape of an operation. -/
def OpKind.isRet : OpKind → Bool
  | .ret _ => true
  | .throwSync _ => false

/-- A queue entry: the tuple `[operation, resolve, reject]` pushed by `push`.
The resolve/reject callbacks are represented by the entry id `eid` under which
settlement of the corresponding `enqueue` promise is recorded. -/
structure Entry where
  eid : Nat
  kind : OpKind
deriving DecidableEq, Repr

/-- One live invocation of `runNext` that has dequeued an entry.
`depWait entry pending` is an invocation suspended at
`await Promise.all(dependencies.map ...)` whose not-yet-resolved dependency
waits are `pending` (a wait resolves, one-shot, when the named queue signals
the named gate; waits whose gate was already open at registration time are
simply absent); `running entry` is an invocation suspended at
`await this.run(entry)`, i.e. the operation is in flight. -/
inductive LoopInst
  | depWait (entry : Entry) (pending : List (Nat × GateKind))
  | running (entry : Entry)
deriving DecidableEq, Repr

/-- The entry held by a loop invocation. -/
def LoopInst.entryOf : LoopInst → Entry
  | .depWait e _ => e
  | .running e => e

/-- Boolean test: is this invocation running its operation (operation in flight)? -/
def LoopInst.isRunningB : LoopInst → Bool
  | .running _ => true
  | .depWait _ _ => false

/-- The pending dependency waits of a loop invocation. -/
def LoopInst.pendingOf : LoopInst → List (Nat × GateKind)
  | .depWait _ p => p
  | .running _ => []

/-- State of one `OperationQueue` instance.  `dependencies` is the private
dependency map (insertion ordered, keys unique, as a JS `Map`), `operations`
the pending list, `suspended` the private `_suspended` flag, `currentSig` and
`allSig` the signalled flags of `currentSemaphore` and `allSemaphore`
(modelled from the spec: a gate is either signalled or reset), and `loops`
the currently live `runNext` invocations that hold a dequeued entry. -/
structure QueueState where
  dependencies : List (Nat × DependencyMode)
  operations : List Entry
  suspended : Bool
  currentSig : Bool
  allSig : Bool
  loops : List LoopInst
deriving DecidableEq, Repr

/-- A freshly constructed queue: no dependencies, empty pending list,
`_suspended = true`, both semaphores constructed with `{signalled: true}`,
no live `runNext` invocation. -/
def mkQueue : QueueState :=
  { dependencies := []
    operations := []
    suspended := true
    currentSig := true
    allSig := true
    loops := [] }

/-- Global system state: the queues (a queue is identified by its index),
the fresh-entry counter (entry ids record submission order), the log of
operation starts (queue index, entry id, in start order) and the log of
promise settlements (entry id, outcome, in settlement order). -/
structure Sys where
  queues : List QueueState
  nextId : Nat
  started : List (Nat × Nat)
  settled : List (Nat × Except Nat Nat)
deriving DecidableEq, Repr

/-- The queue at index `i` (defaulting to a fresh queue for out-of-range
indices; all events are guarded by range checks). -/
def Sys.queueAt (s : Sys) (i : Nat) : QueueState := s.queues.getD i mkQueue

/-- Replace the queue at index `i`. -/
def Sys.setQueue (s : Sys) (i : Nat) (q : QueueState) : Sys :=
  { s with queues := s.queues.set i q }

/-- The gate a dependency wait targets, from the branch
`if (mode === DependencyMode.WaitAll) await dependency.all() else await dependency.current()`
in `runNext`. -/
def gateTarget : DependencyMode → GateKind
  | .waitAll => .all
  | .waitCurrent => .current
  | .interleave => .current

/-- Whether gate `g` of queue `j` is currently signalled. -/
def gateOpen (s : Sys) (j : Nat) (g : GateKind) : Bool :=
  match g with
  | .current => (s.queueAt j).currentSig
  | .all => (s.queueAt j).allSig

/-- Resolve the one-shot wait on gate `(j, g)` held by a loop invocation. -/
def clearWait (j : Nat) (g : GateKind) : LoopInst → LoopInst
  | .depWait e pending => .depWait e (pending.filter (fun p => p ≠ (j, g)))
  | .running e => .running e

/-- Resolve the waits on gate `(j, g)` across the whole system: releasing a
semaphore's registered waiters settles their promises. -/
def resolveWaits (j : Nat) (g : GateKind) (qs : List QueueState) : List QueueState :=
  qs.map (fun q => { q with loops := q.loops.map (clearWait j g) })

/-- Set the signalled flag of one gate of a queue. -/
def setGate (q : QueueState) (g : GateKind) (b : Bool) : QueueState :=
  match g with
  | .current => { q with currentSig := b }
  | .all => { q with allSig := b }

/-- Semaphore `signal()` on gate `(j, g)`: mark the gate signalled and release
every registered waiter (modelled from the spec, section 4.3). -/
def signalGate (s : Sys) (j : Nat) (g : GateKind) : Sys :=
  let s1 : Sys := { s with queues := resolveWaits j g s.queues }
  s1.setQueue j (setGate (s1.queueAt j) g true)

/-- The dependency waits registered by
`Promise.all(dependencies.map(async ([dependency, mode]) => ...))`:
one wait per dependency, targeting the dependency's all gate for `WaitAll`
and its current gate otherwise; a wait whose gate is already signalled at
registration time passes through immediately and is not registered. -/
def depPending (s : Sys) (deps : List (Nat × DependencyMode)) : List (Nat × GateKind) :=
  (deps.map (fun p => (p.1, gateTarget p.2))).filter (fun p => !(gateOpen s p.1 p.2))

/-- The synchronous part of `runNext` on queue `i`, up to its first suspension
point: dequeue the next entry; if there is none, signal the all gate and
suspend; otherwise reset both semaphores and register the dependency waits,
leaving a live invocation suspended at the `Promise.all`. -/
def runNextSync (s : Sys) (i : Nat) : Sys :=
  match (s.queueAt i).operations with
  | [] =>
      let s1 := signalGate s i .all
      s1.setQueue i { s1.queueAt i with suspended := true }
  | e :: rest =>
      let q1 := { s.queueAt i with
                    operations := rest
                    currentSig := false
                    allSig := false }
      let s1 := s.setQueue i q1
      let pending := depPending s1 q1.dependencies
      s1.setQueue i { s1.queueAt i with
                        loops := (s1.queueAt i).loops ++ [.depWait e pending] }

/-- `Map.set` on the dependency map: overwrite the mode of an existing key,
otherwise append (JS `Map` keeps insertion order). -/
def setMode (deps : List (Nat × DependencyMode)) (j : Nat) (m : DependencyMode) :
    List (Nat × DependencyMode) :=
  if deps.any (fun p => p.1 = j) then
    deps.map (fun p => if p.1 = j then (j, m) else p)
  else deps ++ [(j, m)]

/-- The events of the system: the public API calls of `OperationQueue`
(`enqueue`, `clear`, `suspend`, `resume`, `addDependency`) plus the two
event-loop steps of a live `runNext` invocation (`startOp`: the scheduled
continuation after the dependency `Promise.all` runs and invokes the
operation; `complete`: the in-flight operation finishes and the invocation
resumes after `await this.run(entry)`). -/
inductive Event
  | enqueue (i : Nat) (k : OpKind)
  | clear (i : Nat)
  | suspend (i : Nat)
  | resume (i : Nat)
  | addDep (i : Nat) (j : Nat) (m : DependencyMode)
  | startOp (i : Nat) (j : Nat)
  | complete (i : Nat) (j : Nat)
deriving DecidableEq, Repr

/-- One atomic step of the system.  Each branch is the synchronous segment
of the corresponding source method:

* `enqueue`: `push` appends the entry, then `resume()` returns if the queue
  is not suspended and otherwise clears the flag and runs `runNext`'s
  synchronous part;
* `clear`: wipe the pending list, then `suspend()`;
* `suspend` / `resume`: the idempotent flag toggles (`resume` kicks
  `runNext` when it flips the flag);
* `addDep`: `dependencies.set(queue, mode)`, and for `Interleave` also
  `queue.dependencies.set(this, mode)`;
* `startOp`: a live invocation whose dependency waits have all resolved is
  scheduled; it calls `operation()`.  For a `ret` operation the invocation
  is now awaiting `run`'s promise.  For a synchronously throwing operation
  the exception rejects `run(entry)`'s promise, `await this.run(entry)`
  rethrows inside `runNext`, and `runNext`'s own (unawaited) promise
  rejects: the invocation dies without signalling and without calling
  `resolve`/`reject` (the `.then(resolve, reject)` was never reached);
* `complete`: the in-flight operation settles; `.then(resolve, reject)`
  delivers the outcome to the entry's promise, `runNext` resumes, signals
  the current gate and recursively runs `runNext`'s synchronous part. -/
def step (s : Sys) : Event → Option Sys
  | .enqueue i k =>
      if i < s.queues.length then
        let e : Entry := { eid := s.nextId, kind := k }
        let q1 := { s.queueAt i with operations := (s.queueAt i).operations ++ [e] }
        let s1 : Sys := { s.setQueue i q1 with nextId := s.nextId + 1 }
        if q1.suspended then
          let s2 := s1.setQueue i { s1.queueAt i with suspended := false }
          some (runNextSync s2 i)
        else
          some s1
      else none
  | .clear i =>
      if i < s.queues.length then
        some (s.setQueue i { s.queueAt i with operations := [], suspended := true })
      else none
  | .suspend i =>
      if i < s.queues.length then
        some (s.setQueue i { s.queueAt i with suspended := true })
      else none
  | .resume i =>
      if i < s.queues.length then
        if (s.queueAt i).suspended then
          some (runNextSync (s.setQueue i { s.queueAt i with suspended := false }) i)
        else some s
      else none
  | .addDep i j m =>
      if i < s.queues.length ∧ j < s.queues.length then
        let s1 := s.setQueue i
          { s.queueAt i with dependencies := setMode (s.queueAt i).dependencies j m }
        if m = .interleave then
          some (s1.setQueue j
            { s1.queueAt j with dependencies := setMode (s1.queueAt j).dependencies i m })
        else some s1
      else none
  | .startOp i j =>
      match (s.queueAt i).loops.get? j with
      | some (.depWait e []) =>
          let s1 : Sys := { s with started := s.started ++ [(i, e.eid)] }
          match e.kind with
          | .ret _ =>
              some (s1.setQueue i
                { s1.queueAt i with loops := (s1.queueAt i).loops.set j (.running e) })
          | .throwSync _ =>
              some (s1.setQueue i
                { s1.queueAt i with loops := (s1.queueAt i).loops.eraseIdx j })
      | _ => none
  | .complete i j =>
      match (s.queueAt i).loops.get? j with
      | some (.running e) =>
          match e.kind with
          | .ret oc =>
              let s1 : Sys := { s with settled := s.settled ++ [(e.eid, oc)] }
              let s2 := s1.setQueue i
                { s1.queueAt i with loops := (s1.queueAt i).loops.eraseIdx j }
              let s3 := signalGate s2 i .current
              some (runNextSync s3 i)
          | .throwSync _ => none
      | _ => none

/-- Run a list of events from a state; `none` if some event is not enabled. -/
def runTrace (s : Sys) : List Event → Option Sys
  | [] => some s
  | ev :: tr =>
      match step s ev with
      | some s1 => runTrace s1 tr
      | none => none

/-- States reachable from `s0` by events satisfying the filter `ok`. -/
inductive Reach (s0 : Sys) (ok : Event → Bool) : Sys → Prop
  | refl : Reach s0 ok s0
  | tail {s e s1} : Reach s0 ok s → ok e = true → step s e = some s1 → Reach s0 ok s1

/-- A system with one fresh queue. -/
def init1 : Sys := { queues := [mkQueue], nextId := 0, started := [], settled := [] }

/-- A system with two fresh queues. -/
def init2 : Sys := { queues := [mkQueue, mkQueue], nextId := 0, started := [], settled := [] }

/-- Entry ids in start order. -/
def startedEids (s : Sys) : List Nat := s.started.map Prod.snd

/-- Entry ids started on queue `i`, in start order. -/
def startedOn (s : Sys) (i : Nat) : List Nat :=
  (s.started.filter (fun p => p.1 = i)).map Prod.snd

/-- Entry ids whose `enqueue` promise has settled, in settlement order. -/
def settledEids (s : Sys) : List Nat := s.settled.map Prod.fst

/-- Entry ids in a queue's pending list. -/
def opsEids (q : QueueState) : List Nat := q.operations.map Entry.eid

/-- Entry ids held by a queue's live `runNext` invocations. -/
def loopEids (q : QueueState) : List Nat := q.loops.map (fun l => l.entryOf.eid)

/-- Entry ids held by live invocations that have not yet invoked their operation. -/
def notStartedEids (q : QueueState) : List Nat :=
  q.loops.filterMap (fun l => match l with | .depWait e _ => some e.eid | .running _ => none)

/-- Entry ids of in-flight operations of a queue. -/
def runningEids (q : QueueState) : List Nat :=
  q.loops.filterMap (fun l => match l with | .running e => some e.eid | .depWait _ _ => none)

/-- Number of operations in flight across the system. -/
def runningCount (s : Sys) : Nat :=
  (s.queues.map (fun q => (q.loops.filter LoopInst.isRunningB).length)).sum

/-- Event filter: the events available to a caller that only enqueues work and
lets the event loop run (no external `suspend`/`resume`/`clear`/`addDependency`). -/
def evBasic : Event → Bool
  | .enqueue _ _ => true
  | .startOp _ _ => true
  | .complete _ _ => true
  | _ => false

/-- Event filter for the two-queue dependency protocol: enqueues of operations
that complete (arbitrary durations and outcomes), and the event-loop steps. -/
def evPair : Event → Bool
  | .enqueue _ (.ret _) => true
  | .enqueue _ (.throwSync _) => false
  | .startOp _ _ => true
  | .complete _ _ => true
  | _ => false

/-- Observable summary of one queue's state. -/
structure QueueView where
  opsIds : List Nat
  susp : Bool
  curSig : Bool
  allSigView : Bool
  loopCount : Nat
  runCount : Nat
deriving DecidableEq, Repr

/-- Compute the observable summary of queue `i`. -/
def queueView (s : Sys) (i : Nat) : QueueView :=
  { opsIds := opsEids (s.queueAt i)
    susp := (s.queueAt i).suspended
    curSig := (s.queueAt i).currentSig
    allSigView := (s.queueAt i).allSig
    loopCount := (s.queueAt i).loops.length
    runCount := ((s.queueAt i).loops.filter LoopInst.isRunningB).length }

/-- Observable summary (queue `i` view, start log, settlement log) after
running a trace, or `none` if the trace is not enabled. -/
def viewAfter (s : Sys) (tr : List Event) (i : Nat) :
    Option (QueueView × List (Nat × Nat) × List (Nat × Except Nat Nat)) :=
  (runTrace s tr).map (fun t => (queueView t i, t.started, t.settled))

/-- Number of operations in flight after running a trace. -/
def runningAfter (s : Sys) (tr : List Event) : Option Nat :=
  (runTrace s tr).map runningCount

/-- Two queues with a mutual dependency already registered: queue 0 depends
on queue 1 with mode `mA`, queue 1 on queue 0 with mode `mB`. -/
def mutualInit (mA mB : DependencyMode) : Sys :=
  { queues := [{ mkQueue with dependencies := [(1, mA)] },
               { mkQueue with dependencies := [(0, mB)] }]
    nextId := 0
    started := []
    settled := [] }

/-- The mutually dependent pair after one operation has been enqueued on each
queue: queue 0 holds a ready invocation, queue 1 holds an invocation blocked
on queue 0's current gate. -/
def mutualKicked : Sys :=
  Sys.mk
    [⟨[(1, .waitCurrent)], [], false, false, false,
        [.depWait ⟨0, .ret (.ok 5)⟩ []]⟩,
     ⟨[(0, .waitCurrent)], [], false, false, false,
        [.depWait ⟨1, .ret (.ok 7)⟩ [(0, .current)]]⟩]
    2 [] []

/-- The state after queue `i` has shifted an entry off its pending list,
leaving `rest`, and reset both of its gates (the first half of `runNext`'s
non-empty branch). -/
def dequeue1 (s : Sys) (i : Nat) (rest : List Entry) : Sys :=
  s.setQueue i
    { s.queueAt i with operations := rest, currentSig := false, allSig := false }

/-- Witness state for the single-queue claims: the state reached from a fresh
queue by enqueueing one operation and letting the event loop invoke it. -/
def oneRunning : Sys :=
  { queues := [⟨[], [], false, false, false, [.running ⟨0, .ret (.ok 3)⟩]⟩]
    nextId := 1
    started := [(0, 0)]
    settled := [] }

/-- Witness state for the clear claims: entry 0 in flight, entry 1 pending. -/
def clearScene : QueueState :=
  ⟨[], [⟨1, .ret (.ok 1)⟩], false, false, false, [.running ⟨0, .ret (.ok 0)⟩]⟩

/-- The clear-claims witness state after `clear()` and completion of the
in-flight operation. -/
def clearSceneDone : Sys :=
  { queues := [⟨[], [], true, true, true, []⟩]
    nextId := 2
    started := [(0, 0)]
    settled := [(0, .ok 0)] }

/-- The dead state reached by enqueueing a synchronously throwing operation
on a fresh queue and letting the loop invoke it: no live invocation, flag
still cleared, nothing settled. -/
def deadAfterThrow : Sys :=
  { queues := [⟨[], [], false, false, false, []⟩]
    nextId := 1
    started := [(0, 0)]
    settled := [] }

/-- The dead state with a never-to-run survivor: entry 0 threw synchronously,
entry 1 is still pending, the loop is gone and the flag still cleared. -/
def deadWithPending : Sys :=
  { queues := [⟨[], [⟨1, .ret (.ok 1)⟩], false, false, false, []⟩]
    nextId := 2
    started := [(0, 0)]
    settled := [] }

/-- A dead single queue: no live `runNext` invocation but the suspended flag
still cleared (so `resume()` inside `push` is a no-op), with a frozen start
log.  This is the state a synchronous throw leaves behind. -/
def DeadQ (st0 : List (Nat × Nat)) (s : Sys) : Prop :=
  s.queues.length = 1 ∧ (s.queueAt 0).loops = [] ∧
    (s.queueAt 0).suspended = false ∧ s.started = st0

/-- Whether a looked-up loop invocation is ready to run its operation: it is
suspended at the dependency `Promise.all` with every wait resolved. -/
def isReady : Option LoopInst → Bool
  | some (.depWait _ []) => true
  | some (.depWait _ (_ :: _)) => false
  | some (.running _) => false
  | none => false

/-- A single queue holding one ready invocation for entry 0. -/
def oneReady : Sys :=
  { queues := [⟨[], [], false, false, false, [.depWait ⟨0, .ret (.ok 3)⟩ []]⟩]
    nextId := 1
    started := []
    settled := [] }

/-- An idle queue 0 with a `WaitCurrent` dependency on the idle queue 1. -/
def depScene : Sys :=
  { queues := [⟨[(1, .waitCurrent)], [], true, true, true, []⟩, mkQueue]
    nextId := 0
    started := []
    settled := [] }

/-- The dependency scene directly after one `enqueue` on queue 0: the new
invocation was left ready without registering any wait, since queue 1's
current gate was open. -/
def depSceneKicked : Sys :=
  { queues := [⟨[(1, .waitCurrent)], [], false, false, false,
      [.depWait ⟨0, .ret (.ok 5)⟩ []]⟩, mkQueue]
    nextId := 1
    started := []
    settled := [] }

/-- The system directly after `push` inside `enqueue`: the entry appended to
queue `i`'s pending list and the fresh counter advanced. -/
def enqPushed (s : Sys) (i : Nat) (k : OpKind) : Sys :=
  { s.setQueue i
      { s.queueAt i with operations := (s.queueAt i).operations ++ [⟨s.nextId, k⟩] } with
    nextId := s.nextId + 1 }

/-- The state passed to `runNext` by an `enqueue` on a suspended queue: the
entry appended, the fresh counter advanced, the flag cleared. -/
def enqKick (s : Sys) (i : Nat) (k : OpKind) : Sys :=
  (enqPushed s i k).setQueue i { (enqPushed s i k).queueAt i with suspended := false }

/-- Entry id `x` does not occur in queue `q`, neither pending nor held by a
live invocation. -/
def NoEid (x : Nat) (q : QueueState) : Prop :=
  x ∉ opsEids q ∧ x ∉ loopEids q

/-- Entry id `x` has vanished from the system: it is stale (below the fresh
counter), its promise has not settled, and no queue holds it. -/
def Vanished (x : Nat) (s : Sys) : Prop :=
  x < s.nextId ∧ x ∉ settledEids s ∧ ∀ q ∈ s.queues, NoEid x q

/-- Entry id `x` has vanished and moreover never started. -/
def Absent (x : Nat) (s : Sys) : Prop :=
  Vanished x s ∧ x ∉ startedEids s

/-- Submission-order chain of queue 0: ids already started, then ids held by
live invocations that have not yet started, then ids still pending.  The
whole chain being strictly increasing expresses that operations are
processed in submission order. -/
def orderChain (s : Sys) : List Nat :=
  startedEids s ++ notStartedEids (s.queueAt 0) ++ opsEids (s.queueAt 0)

/-- Settlement-order chain of queue 0: ids already settled, then the id in
flight, then ids held by not-yet-started invocations, then pending ids. -/
def settleChain (s : Sys) : List Nat :=
  settledEids s ++ runningEids (s.queueAt 0) ++ notStartedEids (s.queueAt 0) ++
    opsEids (s.queueAt 0)

/-- Invariant of a single dependency-free queue driven only by `enqueue` and
the event loop (no external `suspend`/`resume`/`clear`): at most one live
`runNext` invocation exists; a suspended queue is fully drained; the all
gate is open only in a fully drained, suspended queue; and both the start
chain and the settlement chain are strictly increasing and below the fresh
counter. -/
def Inv1 (s : Sys) : Prop :=
  s.queues.length = 1 ∧
  (s.queueAt 0).dependencies = [] ∧
  (s.queueAt 0).loops.length ≤ 1 ∧
  ((s.queueAt 0).suspended = true → (s.queueAt 0).loops = [] ∧ (s.queueAt 0).operations = []) ∧
  ((s.queueAt 0).allSig = true →
    (s.queueAt 0).operations = [] ∧ (s.queueAt 0).loops = [] ∧ (s.queueAt 0).suspended = true) ∧
  List.Pairwise (· < ·) (orderChain s) ∧
  List.Pairwise (· < ·) (settleChain s) ∧
  (∀ y ∈ orderChain s, y < s.nextId) ∧
  (∀ y ∈ settleChain s, y < s.nextId)

/-- Some queue still has work: a pending entry or a live invocation. -/
def hasWork (s : Sys) : Bool :=
  s.queues.any (fun q => !q.operations.isEmpty || !q.loops.isEmpty)

/-- The event-loop event a single invocation can take: completion when it is
running, start when it is ready, nothing when it is waiting. -/
def instEvent (i j : Nat) : LoopInst → Option Event
  | .running _ => some (.complete i j)
  | .depWait _ [] => some (.startOp i j)
  | .depWait _ (_ :: _) => none

/-- Scan a queue's invocations for an event-loop event. -/
def findInQueue (i j : Nat) : List LoopInst → Option Event
  | [] => none
  | l :: rest =>
      match instEvent i j l with
      | some ev => some ev
      | none => findInQueue i (j + 1) rest

/-- Scan a two-queue system for an event-loop event. -/
def findReadySys (s : Sys) : Option Event :=
  match findInQueue 0 0 (s.queueAt 0).loops with
  | some ev => some ev
  | none => findInQueue 1 0 (s.queueAt 1).loops

/-- The system can make an event-loop step: the scan found an event of the
restricted alphabet that is enabled. -/
def canStep (s : Sys) : Bool :=
  match findReadySys s with
  | some ev => evPair ev && (step s ev).isSome
  | none => false

/-- Queue `q` holds an invocation with an unresolved wait on queue `j`'s
current gate. -/
def BlockedOn (q : QueueState) (j : Nat) : Prop :=
  ∃ l ∈ q.loops, (j, GateKind.current) ∈ l.pendingOf

/-- Does the event complete an operation of queue `i`? -/
def isCompleteOn (i : Nat) : Event → Bool
  | .complete i2 _ => decide (i2 = i)
  | _ => false

/-- Per-queue invariant of the two-queue mutual-current-dependency protocol:
the dependency map holds exactly the other queue, at most one invocation is
live, suspension coincides with having no invocation and implies a drained
pending list, a reset current gate means an invocation is mid-cycle, all
operations complete (none throws synchronously) and every registered wait
targets the other queue's current gate. -/
structure QInvPair (q : QueueState) (other : Nat) (m : DependencyMode) : Prop where
  deps : q.dependencies = [(other, m)]
  len : q.loops.length ≤ 1
  suspIff : q.suspended = true ↔ q.loops = []
  suspOps : q.suspended = true → q.operations = []
  curLoops : q.currentSig = false → q.loops ≠ []
  opsRet : ∀ e ∈ q.operations, e.kind.isRet = true
  loopsOk : ∀ l ∈ q.loops, l.entryOf.kind.isRet = true ∧
    ∀ p ∈ l.pendingOf, p = (other, GateKind.current)

/-- Invariant of the two-queue system with mutual current-gate dependencies:
both per-queue invariants hold, a queue blocked on the other finds the other
mid-cycle with its gate reset, and the two queues are never blocked on each
other simultaneously. -/
structure InvM (mA mB : DependencyMode) (s : Sys) : Prop where
  len2 : s.queues.length = 2
  qa : QInvPair (s.queueAt 0) 1 mA
  qb : QInvPair (s.queueAt 1) 0 mB
  j5a : BlockedOn (s.queueAt 0) 1 →
    (s.queueAt 1).currentSig = false ∧ (s.queueAt 1).loops ≠ []
  j5b : BlockedOn (s.queueAt 1) 0 →
    (s.queueAt 0).currentSig = false ∧ (s.queueAt 0).loops ≠ []
  j3 : ¬(BlockedOn (s.queueAt 0) 1 ∧ BlockedOn (s.queueAt 1) 0)

/-! ### Helper lemmas -/

theorem entryOf_clearWait (j : Nat) (g : GateKind) (l : LoopInst) :
    (clearWait j g l).entryOf = l.entryOf := by
  cases l <;> rfl

theorem map_eid_clearWait (j : Nat) (g : GateKind) :
    ∀ ls : List LoopInst,
      (ls.map (clearWait j g)).map (fun l => l.entryOf.eid) =
        ls.map (fun l => l.entryOf.eid)
  | [] => rfl
  | l :: ls => by
      simp only [List.map_cons, List.cons.injEq]
      exact ⟨by rw [entryOf_clearWait], map_eid_clearWait j g ls⟩

theorem noEid_mk (x : Nat) : NoEid x mkQueue := by
  constructor <;> simp [opsEids, loopEids, mkQueue]

theorem mem_of_getElemO {α : Type} {l : List α} {i : Nat} {a : α}
    (h : l[i]? = some a) : a ∈ l := by
  obtain ⟨hi, rfl⟩ := List.getElem?_eq_some_iff.mp h
  exact List.getElem_mem hi

theorem noEid_queueAt {x : Nat} {s : Sys} (h : ∀ q ∈ s.queues, NoEid x q) (i : Nat) :
    NoEid x (s.queueAt i) := by
  unfold Sys.queueAt
  rw [List.getD_eq_getElem?_getD]
  rcases hlt : s.queues[i]? with _ | q
  · simpa using noEid_mk x
  · simpa using h q (mem_of_getElemO hlt)

theorem noEid_set {x : Nat} {qs : List QueueState} {i : Nat} {qn : QueueState}
    (h : ∀ q ∈ qs, NoEid x q) (hn : NoEid x qn) : ∀ q ∈ qs.set i qn, NoEid x q := by
  intro q hq
  rcases List.mem_or_eq_of_mem_set hq with h1 | h1
  · exact h q h1
  · exact h1 ▸ hn

theorem noEid_clearWaitMap {x : Nat} {q : QueueState} (h : NoEid x q) (j : Nat) (g : GateKind) :
    NoEid x { q with loops := q.loops.map (clearWait j g) } := by
  obtain ⟨h1, h2⟩ := h
  refine ⟨h1, ?_⟩
  show x ∉ (q.loops.map (clearWait j g)).map (fun l => l.entryOf.eid)
  rw [map_eid_clearWait]
  exact h2

theorem noEid_signalGate {x : Nat} {s : Sys} (h : ∀ q ∈ s.queues, NoEid x q)
    (j : Nat) (g : GateKind) : ∀ q ∈ (signalGate s j g).queues, NoEid x q := by
  have hres : ∀ q ∈ resolveWaits j g s.queues, NoEid x q := by
    intro q hq
    unfold resolveWaits at hq
    obtain ⟨q0, hq0, rfl⟩ := List.mem_map.mp hq
    exact noEid_clearWaitMap (h q0 hq0) j g
  unfold signalGate
  apply noEid_set hres
  have hat : NoEid x (Sys.queueAt { s with queues := resolveWaits j g s.queues } j) :=
    noEid_queueAt hres j
  cases g <;> exact ⟨hat.1, hat.2⟩

theorem runNextSync_nil {s : Sys} {i : Nat} (h : (s.queueAt i).operations = []) :
    runNextSync s i =
      (signalGate s i .all).setQueue i
        { (signalGate s i .all).queueAt i with suspended := true } := by
  unfold runNextSync
  rw [h]

theorem runNextSync_cons {s : Sys} {i : Nat} {e : Entry} {rest : List Entry}
    (h : (s.queueAt i).operations = e :: rest) :
    runNextSync s i =
      (dequeue1 s i rest).setQueue i
        { (dequeue1 s i rest).queueAt i with
            loops := ((dequeue1 s i rest).queueAt i).loops ++
              [.depWait e (depPending (dequeue1 s i rest) (s.queueAt i).dependencies)] } := by
  unfold runNextSync
  rw [h]
  rfl

theorem noEid_runNextSync {x : Nat} {s : Sys} (h : ∀ q ∈ s.queues, NoEid x q)
    (i : Nat) : ∀ q ∈ (runNextSync s i).queues, NoEid x q := by
  have hat := noEid_queueAt h i
  rcases hops : (s.queueAt i).operations with _ | ⟨e, rest⟩
  · rw [runNextSync_nil hops]
    apply noEid_set (noEid_signalGate h i .all)
    have := noEid_queueAt (noEid_signalGate h i .all) i
    exact ⟨this.1, this.2⟩
  · rw [runNextSync_cons hops]
    have hx1 : x ∉ opsEids (s.queueAt i) := hat.1
    have hx2 : x ∉ loopEids (s.queueAt i) := hat.2
    have hxe : x ≠ e.eid := by
      intro hxe
      refine hx1 ?_
      simp only [opsEids, hops, List.map_cons, hxe]
      exact List.mem_cons_self _ _
    have hxr : x ∉ rest.map Entry.eid := by
      intro hxr
      refine hx1 ?_
      simp only [opsEids, hops, List.map_cons]
      exact List.mem_cons_of_mem _ hxr
    have hset : ∀ q ∈ (dequeue1 s i rest).queues, NoEid x q :=
      noEid_set h ⟨hxr, hx2⟩
    apply noEid_set hset
    have hat1 := noEid_queueAt hset i
    refine ⟨hat1.1, ?_⟩
    intro hmem
    simp only [loopEids, List.map_append] at hmem
    rcases List.mem_append.mp hmem with hmem | hmem
    · exact hat1.2 hmem
    · simp only [List.map_cons, List.map_nil, List.mem_singleton] at hmem
      exact hxe hmem

theorem mem_loopEids_of_get {q : QueueState} {j : Nat} {l : LoopInst}
    (hget : q.loops.get? j = some l) : l.entryOf.eid ∈ loopEids q := by
  have : l ∈ q.loops := by
    have := List.getElem?_eq_some_iff.mp (by simpa [List.get?_eq_getElem?] using hget)
    obtain ⟨hj, hl⟩ := this
    exact hl ▸ List.getElem_mem hj
  exact List.mem_map.mpr ⟨l, this, rfl⟩

theorem noEid_eraseIdx {x : Nat} {q : QueueState} (h : NoEid x q) (j : Nat) :
    NoEid x { q with loops := q.loops.eraseIdx j } := by
  refine ⟨h.1, fun hmem => h.2 ?_⟩
  simp only [loopEids] at hmem ⊢
  obtain ⟨l, hl, rfl⟩ := List.mem_map.mp hmem
  exact List.mem_map.mpr ⟨l, (List.eraseIdx_sublist q.loops j).mem hl, rfl⟩

theorem noEid_setRunning {x : Nat} {q : QueueState} {j : Nat} {e : Entry}
    (h : NoEid x q) (he : x ≠ e.eid) :
    NoEid x { q with loops := q.loops.set j (.running e) } := by
  refine ⟨h.1, fun hmem => ?_⟩
  simp only [loopEids] at hmem
  obtain ⟨l, hl, hx⟩ := List.mem_map.mp hmem
  rcases List.mem_or_eq_of_mem_set hl with h1 | h1
  · exact h.2 (List.mem_map.mpr ⟨l, h1, hx⟩)
  · subst h1
    exact he hx.symm

theorem runNextSync_nextId (s : Sys) (i : Nat) : (runNextSync s i).nextId = s.nextId := by
  rcases hops : (s.queueAt i).operations with _ | ⟨e, rest⟩
  · rw [runNextSync_nil hops]
    rfl
  · rw [runNextSync_cons hops]
    rfl

theorem runNextSync_settled (s : Sys) (i : Nat) : (runNextSync s i).settled = s.settled := by
  rcases hops : (s.queueAt i).operations with _ | ⟨e, rest⟩
  · rw [runNextSync_nil hops]
    rfl
  · rw [runNextSync_cons hops]
    rfl

theorem noEid_same {x : Nat} {q q' : QueueState} (h : NoEid x q)
    (hops2 : q'.operations = q.operations) (hloops2 : q'.loops = q.loops) : NoEid x q' := by
  constructor
  · show x ∉ opsEids q'
    unfold opsEids
    rw [hops2]
    exact h.1
  · show x ∉ loopEids q'
    unfold loopEids
    rw [hloops2]
    exact h.2

theorem vanished_setQueue {x : Nat} {s : Sys} {i : Nat} {qn : QueueState}
    (h : Vanished x s) (hq : NoEid x qn) : Vanished x (s.setQueue i qn) :=
  ⟨h.1, h.2.1, noEid_set h.2.2 hq⟩

theorem vanished_signalGate {x : Nat} {s : Sys} (h : Vanished x s) (j : Nat) (g : GateKind) :
    Vanished x (signalGate s j g) :=
  ⟨h.1, h.2.1, noEid_signalGate h.2.2 j g⟩

theorem vanished_runNextSync {x : Nat} {s : Sys} (h : Vanished x s) (i : Nat) :
    Vanished x (runNextSync s i) := by
  refine ⟨?_, ?_, noEid_runNextSync h.2.2 i⟩
  · rw [runNextSync_nextId]
    exact h.1
  · show x ∉ settledEids (runNextSync s i)
    unfold settledEids
    rw [runNextSync_settled]
    exact h.2.1

theorem vanished_step {x : Nat} {s s' : Sys} {ev : Event}
    (hv : Vanished x s) (hstep : step s ev = some s') : Vanished x s' := by
  have hq := hv.2.2
  cases ev with
  | enqueue i k =>
      simp only [step] at hstep
      split at hstep
      case isTrue hlt =>
        have hxnew : x ≠ s.nextId := Nat.ne_of_lt hv.1
        have hat := noEid_queueAt hq i
        have hq1n : NoEid x
            ({ s.queueAt i with
                operations := (s.queueAt i).operations ++ [⟨s.nextId, k⟩] }) := by
          refine ⟨?_, hat.2⟩
          intro hmem
          simp only [opsEids, List.map_append, List.mem_append] at hmem
          rcases hmem with hmem | hmem
          · exact hat.1 hmem
          · simp at hmem
            exact hxnew hmem
        have hv1 : Vanished x
            ({ s.setQueue i
                { s.queueAt i with
                    operations := (s.queueAt i).operations ++ [⟨s.nextId, k⟩] } with
                nextId := s.nextId + 1 }) :=
          ⟨Nat.lt_succ_of_lt hv.1, hv.2.1, noEid_set hq hq1n⟩
        split at hstep
        case isTrue hsus =>
          cases hstep
          apply vanished_runNextSync
          exact vanished_setQueue hv1 (noEid_same (noEid_queueAt hv1.2.2 i) rfl rfl)
        case isFalse hsus =>
          cases hstep
          exact hv1
      case isFalse => cases hstep
  | clear i =>
      simp only [step] at hstep
      split at hstep
      case isTrue hlt =>
        cases hstep
        refine vanished_setQueue hv ⟨?_, (noEid_queueAt hq i).2⟩
        simp [opsEids]
      case isFalse => cases hstep
  | suspend i =>
      simp only [step] at hstep
      split at hstep
      case isTrue hlt =>
        cases hstep
        exact vanished_setQueue hv (noEid_same (noEid_queueAt hq i) rfl rfl)
      case isFalse => cases hstep
  | resume i =>
      simp only [step] at hstep
      split at hstep
      case isTrue hlt =>
        split at hstep
        case isTrue hsus =>
          cases hstep
          apply vanished_runNextSync
          exact vanished_setQueue hv (noEid_same (noEid_queueAt hq i) rfl rfl)
        case isFalse hsus =>
          cases hstep
          exact hv
      case isFalse => cases hstep
  | addDep i j m =>
      simp only [step] at hstep
      split at hstep
      case isTrue hlt =>
        have hqn : NoEid x { s.queueAt i with
            dependencies := setMode (s.queueAt i).dependencies j m } :=
          noEid_same (noEid_queueAt hq i) rfl rfl
        have hv1 := @vanished_setQueue x s i _ hv hqn
        split at hstep
        case isTrue =>
          cases hstep
          exact vanished_setQueue hv1 (noEid_same (noEid_queueAt hv1.2.2 j) rfl rfl)
        case isFalse =>
          cases hstep
          exact hv1
      case isFalse => cases hstep
  | startOp i j =>
      simp only [step] at hstep
      split at hstep
      case _ e heq =>
        have heid : e.eid ∈ loopEids (s.queueAt i) := mem_loopEids_of_get heq
        have hxe : x ≠ e.eid := fun hxe => (noEid_queueAt hq i).2 (hxe ▸ heid)
        have hv1 : Vanished x ({ s with started := s.started ++ [(i, e.eid)] }) :=
          ⟨hv.1, hv.2.1, hq⟩
        split at hstep
        case _ =>
          cases hstep
          exact vanished_setQueue hv1
            (noEid_setRunning (noEid_queueAt hv1.2.2 i) hxe)
        case _ =>
          cases hstep
          exact vanished_setQueue hv1 (noEid_eraseIdx (noEid_queueAt hv1.2.2 i) j)
      case _ => cases hstep
  | complete i j =>
      simp only [step] at hstep
      split at hstep
      case _ e heq =>
        have heid : e.eid ∈ loopEids (s.queueAt i) := mem_loopEids_of_get heq
        have hxe : x ≠ e.eid := fun hxe => (noEid_queueAt hq i).2 (hxe ▸ heid)
        split at hstep
        case _ oc hk =>
          cases hstep
          have hsettled1 : x ∉ settledEids ({ s with settled := s.settled ++ [(e.eid, oc)] }) := by
            intro hmem
            simp only [settledEids, List.map_append, List.mem_append] at hmem
            rcases hmem with hmem | hmem
            · exact hv.2.1 hmem
            · simp at hmem
              exact hxe hmem
          have hv1 : Vanished x ({ s with settled := s.settled ++ [(e.eid, oc)] }) :=
            ⟨hv.1, hsettled1, hq⟩
          apply vanished_runNextSync
          apply vanished_signalGate
          exact vanished_setQueue hv1 (noEid_eraseIdx (noEid_queueAt hv1.2.2 i) j)
        case _ => cases hstep
      case _ => cases hstep

theorem vanished_runTrace {x : Nat} {s s' : Sys} {tr : List Event}
    (hv : Vanished x s) (hrun : runTrace s tr = some s') : Vanished x s' := by
  induction tr generalizing s with
  | nil => cases hrun; exact hv
  | cons ev tr ih =>
      simp only [runTrace] at hrun
      rcases hstep : step s ev with _ | s1
      · rw [hstep] at hrun; cases hrun
      · rw [hstep] at hrun
        exact ih (vanished_step hv hstep) hrun

theorem signalGate_started (s : Sys) (j : Nat) (g : GateKind) :
    (signalGate s j g).started = s.started := rfl

theorem runNextSync_started (s : Sys) (i : Nat) :
    (runNextSync s i).started = s.started := by
  unfold runNextSync
  split <;> rfl

theorem startedEids_runNextSync (s : Sys) (i : Nat) :
    startedEids (runNextSync s i) = startedEids s := by
  unfold startedEids
  rw [runNextSync_started]

theorem absent_step {x : Nat} {s s' : Sys} {ev : Event}
    (ha : Absent x s) (hstep : step s ev = some s') : Absent x s' := by
  obtain ⟨hv, hstarted⟩ := ha
  refine ⟨vanished_step hv hstep, ?_⟩
  cases ev with
  | startOp i j =>
      simp only [step] at hstep
      split at hstep
      case _ e heq =>
        have heid : e.eid ∈ loopEids (s.queueAt i) := mem_loopEids_of_get heq
        have hxe : x ≠ e.eid := fun hxe => (noEid_queueAt hv.2.2 i).2 (hxe ▸ heid)
        have hstarted' : ∀ t : Sys, t.started = s.started ++ [(i, e.eid)] →
            x ∉ startedEids t := by
          intro t ht hmem
          simp only [startedEids, ht, List.map_append, List.mem_append] at hmem
          rcases hmem with hmem | hmem
          · exact hstarted hmem
          · simp at hmem
            exact hxe hmem
        split at hstep
        case _ =>
          cases hstep
          exact hstarted' _ rfl
        case _ =>
          cases hstep
          exact hstarted' _ rfl
      case _ => cases hstep
  | enqueue i k =>
      simp only [step] at hstep
      split at hstep
      case isTrue =>
        split at hstep
        case isTrue =>
          cases hstep
          rw [startedEids_runNextSync]
          exact hstarted
        case isFalse =>
          cases hstep
          exact hstarted
      case isFalse => cases hstep
  | clear i =>
      simp only [step] at hstep
      split at hstep
      case isTrue =>
        cases hstep
        exact hstarted
      case isFalse => cases hstep
  | suspend i =>
      simp only [step] at hstep
      split at hstep
      case isTrue =>
        cases hstep
        exact hstarted
      case isFalse => cases hstep
  | resume i =>
      simp only [step] at hstep
      split at hstep
      case isTrue =>
        split at hstep
        case isTrue =>
          cases hstep
          rw [startedEids_runNextSync]
          exact hstarted
        case isFalse =>
          cases hstep
          exact hstarted
      case isFalse => cases hstep
  | addDep i j m =>
      simp only [step] at hstep
      split at hstep
      case isTrue =>
        split at hstep
        case isTrue =>
          cases hstep
          exact hstarted
        case isFalse =>
          cases hstep
          exact hstarted
      case isFalse => cases hstep
  | complete i j =>
      simp only [step] at hstep
      split at hstep
      case _ e heq =>
        split at hstep
        case _ oc hk =>
          cases hstep
          rw [startedEids_runNextSync]
          exact hstarted
        case _ => cases hstep
      case _ => cases hstep

theorem absent_runTrace {x : Nat} {s s' : Sys} {tr : List Event}
    (ha : Absent x s) (hrun : runTrace s tr = some s') : Absent x s' := by
  induction tr generalizing s with
  | nil => cases hrun; exact ha
  | cons ev tr ih =>
      simp only [runTrace] at hrun
      rcases hstep : step s ev with _ | s1
      · rw [hstep] at hrun; cases hrun
      · rw [hstep] at hrun
        exact ih (absent_step ha hstep) hrun

theorem queueAt_zero (q : QueueState) (qs : List QueueState) (n : Nat)
    (st : List (Nat × Nat)) (sl : List (Nat × Except Nat Nat)) :
    (Sys.mk (q :: qs) n st sl).queueAt 0 = q := rfl

theorem setQueue_zero (q q' : QueueState) (qs : List QueueState) (n : Nat)
    (st : List (Nat × Nat)) (sl : List (Nat × Except Nat Nat)) :
    (Sys.mk (q :: qs) n st sl).setQueue 0 q' = Sys.mk (q' :: qs) n st sl := rfl

theorem pairwise_lt_append_bound {l : List Nat} {n : Nat}
    (hp : List.Pairwise (· < ·) l) (hb : ∀ y ∈ l, y < n) :
    List.Pairwise (· < ·) (l ++ [n]) := by
  rw [List.pairwise_append]
  refine ⟨hp, List.pairwise_singleton _ _, ?_⟩
  intro a ha b hb2
  simp only [List.mem_singleton] at hb2
  subst hb2
  exact hb a ha

theorem bound_lt_append {l : List Nat} {n : Nat} (hb : ∀ y ∈ l, y < n) :
    ∀ y ∈ l ++ [n], y < n + 1 := by
  intro y hy
  rcases List.mem_append.mp hy with hy | hy
  · exact Nat.lt_succ_of_lt (hb y hy)
  · simp only [List.mem_singleton] at hy
    subst hy
    exact Nat.lt_succ_self _

theorem get_of_len_le_one {α : Type} {l : List α} {j : Nat} {a : α}
    (hlen : l.length ≤ 1) (h : l.get? j = some a) : l = [a] ∧ j = 0 := by
  match l, j, h with
  | [], j, h => exact absurd h (by simp)
  | [b], 0, h =>
      refine ⟨?_, rfl⟩
      have hba : b = a := by simpa using h
      rw [hba]
  | [b], j+1, h => exact absurd h (by simp)
  | a1 :: a2 :: t, j, h => exact absurd hlen (by simp)

theorem inv1_step {s s' : Sys} {ev : Event}
    (h : Inv1 s) (hok : evBasic ev = true) (hstep : step s ev = some s') : Inv1 s' := by
  obtain ⟨hlen, hdeps, hloopLen, hsusp, hallSig, hpA, hpB, hbA, hbB⟩ := h
  obtain ⟨qs, n, st, sl⟩ := s
  obtain ⟨q, rfl⟩ : ∃ q, qs = [q] := List.length_eq_one.mp hlen
  obtain ⟨qd, qops, qsus, qcur, qall, qloops⟩ := q
  have hqd : qd = [] := hdeps
  subst hqd
  have hloopLen1 : qloops.length ≤ 1 := hloopLen
  simp only [orderChain, settleChain, startedEids, settledEids, opsEids, notStartedEids,
    runningEids, queueAt_zero, List.append_assoc] at hpA hpB hbA hbB
  cases ev with
  | clear i => exact Bool.noConfusion hok
  | suspend i => exact Bool.noConfusion hok
  | resume i => exact Bool.noConfusion hok
  | addDep i j m => exact Bool.noConfusion hok
  | enqueue i k =>
      simp only [step] at hstep
      split at hstep
      case isFalse => exact Option.noConfusion hstep
      case isTrue hlt =>
        have hi : i = 0 := by
          simpa using Nat.lt_one_iff.mp (by simpa using hlt)
        subst hi
        split at hstep
        case isTrue hsus =>
          have hqsus : qsus = true := hsus
          subst hqsus
          obtain ⟨hl0, ho0⟩ := hsusp rfl
          have hl0' : qloops = [] := hl0
          have ho0' : qops = [] := ho0
          subst hl0' ho0'
          cases hstep
          show Inv1 (Sys.mk
            [⟨[], [], false, false, false, [.depWait ⟨n, k⟩ []]⟩] (n + 1) st sl)
          simp only [List.filterMap_nil, List.map_nil, List.append_nil, List.nil_append] at hpA hpB hbA hbB
          refine ⟨rfl, rfl, by simp [queueAt_zero], by simp [queueAt_zero], by simp [queueAt_zero], ?_, ?_, ?_, ?_⟩
          · simp only [orderChain, startedEids, notStartedEids, opsEids, queueAt_zero,
              List.filterMap_cons, List.filterMap_nil, List.map_nil, List.append_nil]
            exact pairwise_lt_append_bound hpA hbA
          · simp only [settleChain, settledEids, runningEids, notStartedEids, opsEids,
              queueAt_zero, List.filterMap_cons, List.filterMap_nil, List.map_nil,
              List.append_nil]
            exact pairwise_lt_append_bound hpB hbB
          · simp only [orderChain, startedEids, notStartedEids, opsEids, queueAt_zero,
              List.filterMap_cons, List.filterMap_nil, List.map_nil, List.append_nil]
            exact bound_lt_append hbA
          · simp only [settleChain, settledEids, runningEids, notStartedEids, opsEids,
              queueAt_zero, List.filterMap_cons, List.filterMap_nil, List.map_nil,
              List.append_nil]
            exact bound_lt_append hbB
        case isFalse hsus =>
          have hqsus : qsus = false := by
            cases qsus
            · rfl
            · exact absurd rfl hsus
          subst hqsus
          cases hstep
          show Inv1 (Sys.mk
            [⟨[], qops ++ [⟨n, k⟩], false, qcur, qall, qloops⟩] (n + 1) st sl)
          have hqall : qall = false := by
            cases qall
            · rfl
            · exact Bool.noConfusion (show false = true from (hallSig rfl).2.2)
          subst hqall
          refine ⟨rfl, rfl, hloopLen1, by simp [queueAt_zero], by simp [queueAt_zero], ?_, ?_, ?_, ?_⟩
          · simp only [orderChain, startedEids, notStartedEids, opsEids, queueAt_zero,
              List.map_append, List.map_cons, List.map_nil, List.append_assoc]
            rw [← List.append_assoc, ← List.append_assoc]
            apply pairwise_lt_append_bound
            · simpa [List.append_assoc] using hpA
            · simpa [List.append_assoc] using hbA
          · simp only [settleChain, settledEids, runningEids, notStartedEids, opsEids,
              queueAt_zero, List.map_append, List.map_cons, List.map_nil, List.append_assoc]
            rw [← List.append_assoc, ← List.append_assoc, ← List.append_assoc]
            apply pairwise_lt_append_bound
            · simpa [List.append_assoc] using hpB
            · simpa [List.append_assoc] using hbB
          · simp only [orderChain, startedEids, notStartedEids, opsEids, queueAt_zero,
              List.map_append, List.map_cons, List.map_nil, List.append_assoc]
            rw [← List.append_assoc, ← List.append_assoc]
            apply bound_lt_append
            simpa [List.append_assoc] using hbA
          · simp only [settleChain, settledEids, runningEids, notStartedEids, opsEids,
              queueAt_zero, List.map_append, List.map_cons, List.map_nil, List.append_assoc]
            rw [← List.append_assoc, ← List.append_assoc, ← List.append_assoc]
            apply bound_lt_append
            simpa [List.append_assoc] using hbB
  | startOp i j =>
      rcases i with _ | i2
      case succ => exact Option.noConfusion hstep
      case zero =>
        simp only [step, queueAt_zero] at hstep
        rcases hget : qloops.get? j with _ | inst
        · rw [hget] at hstep
          exact Option.noConfusion hstep
        · obtain ⟨hq, hj⟩ := get_of_len_le_one hloopLen1 hget
          rcases inst with ⟨e, pending⟩ | e
          · rcases pending with _ | ⟨p, ps⟩
            · subst hq hj
              obtain ⟨eid, kind⟩ := e
              have hqsus : qsus = false := by
                cases qsus
                · rfl
                · exact List.noConfusion
                    (show [LoopInst.depWait ⟨eid, kind⟩ []] = [] from (hsusp rfl).1)
              have hqall : qall = false := by
                cases qall
                · rfl
                · exact List.noConfusion
                    (show [LoopInst.depWait ⟨eid, kind⟩ []] = [] from (hallSig rfl).2.1)
              subst hqsus hqall
              simp only [List.filterMap_cons, List.filterMap_nil, List.nil_append,
                List.append_nil] at hpA hpB hbA hbB
              rcases kind with oc | err
              · cases hstep
                show Inv1 (Sys.mk
                  [⟨[], qops, false, qcur, false, [.running ⟨eid, .ret oc⟩]⟩] n
                  (st ++ [(0, eid)]) sl)
                refine ⟨rfl, rfl, by simp [queueAt_zero], by simp [queueAt_zero], by simp [queueAt_zero], ?_, ?_, ?_, ?_⟩
                · simp only [orderChain, startedEids, notStartedEids, opsEids, queueAt_zero,
                    List.map_append, List.map_cons, List.map_nil, List.filterMap_cons,
                    List.filterMap_nil, List.append_nil, List.append_assoc,
                    List.singleton_append]
                  simpa [List.singleton_append] using hpA
                · simp only [settleChain, settledEids, runningEids, notStartedEids, opsEids,
                    queueAt_zero, List.map_append, List.map_cons, List.map_nil,
                    List.filterMap_cons, List.filterMap_nil, List.append_nil,
                    List.append_assoc, List.singleton_append]
                  simpa [List.singleton_append] using hpB
                · simp only [orderChain, startedEids, notStartedEids, opsEids, queueAt_zero,
                    List.map_append, List.map_cons, List.map_nil, List.filterMap_cons,
                    List.filterMap_nil, List.append_nil, List.append_assoc,
                    List.singleton_append]
                  simpa [List.singleton_append] using hbA
                · simp only [settleChain, settledEids, runningEids, notStartedEids, opsEids,
                    queueAt_zero, List.map_append, List.map_cons, List.map_nil,
                    List.filterMap_cons, List.filterMap_nil, List.append_nil,
                    List.append_assoc, List.singleton_append]
                  simpa [List.singleton_append] using hbB
              · cases hstep
                show Inv1 (Sys.mk
                  [⟨[], qops, false, qcur, false, []⟩] n (st ++ [(0, eid)]) sl)
                have hsubB : List.Sublist (sl.map Prod.fst ++ qops.map Entry.eid)
                    (sl.map Prod.fst ++ (eid :: qops.map Entry.eid)) :=
                  List.Sublist.append_left (List.sublist_cons_self _ _) _
                refine ⟨rfl, rfl, by simp [queueAt_zero], by simp [queueAt_zero], by simp [queueAt_zero], ?_, ?_, ?_, ?_⟩
                · simp only [orderChain, startedEids, notStartedEids, opsEids, queueAt_zero,
                    List.map_append, List.map_cons, List.map_nil, List.filterMap_nil,
                    List.append_nil, List.append_assoc, List.singleton_append]
                  simpa [List.singleton_append] using hpA
                · simp only [settleChain, settledEids, runningEids, notStartedEids, opsEids,
                    queueAt_zero, List.filterMap_nil, List.append_nil, List.nil_append]
                  exact List.Pairwise.sublist hsubB (by simpa [List.singleton_append] using hpB)
                · simp only [orderChain, startedEids, notStartedEids, opsEids, queueAt_zero,
                    List.map_append, List.map_cons, List.map_nil, List.filterMap_nil,
                    List.append_nil, List.append_assoc, List.singleton_append]
                  simpa [List.singleton_append] using hbA
                · intro y hy
                  simp only [settleChain, settledEids, runningEids, notStartedEids, opsEids,
                    queueAt_zero, List.filterMap_nil, List.append_nil, List.nil_append,
                    List.mem_append] at hy
                  apply hbB y
                  simp only [List.mem_append, List.singleton_append, List.mem_cons]
                  tauto
            · rw [hget] at hstep
              exact Option.noConfusion hstep
          · rw [hget] at hstep
            exact Option.noConfusion hstep
  | complete i j =>
      rcases i with _ | i2
      case succ => exact Option.noConfusion hstep
      case zero =>
        simp only [step, queueAt_zero] at hstep
        rcases hget : qloops.get? j with _ | inst
        · rw [hget] at hstep
          exact Option.noConfusion hstep
        · obtain ⟨hq, hj⟩ := get_of_len_le_one hloopLen1 hget
          rcases inst with ⟨e, pending⟩ | e
          · rw [hget] at hstep
            exact Option.noConfusion hstep
          · subst hq hj
            obtain ⟨eid, kind⟩ := e
            rcases kind with oc | err
            case throwSync =>
              rw [hget] at hstep
              exact Option.noConfusion hstep
            case ret =>
              have hqsus : qsus = false := by
                cases qsus
                · rfl
                · exact List.noConfusion
                    (show [LoopInst.running ⟨eid, OpKind.ret oc⟩] = [] from (hsusp rfl).1)
              have hqall : qall = false := by
                cases qall
                · rfl
                · exact List.noConfusion
                    (show [LoopInst.running ⟨eid, OpKind.ret oc⟩] = [] from (hallSig rfl).2.1)
              subst hqsus hqall
              simp only [List.filterMap_cons, List.filterMap_nil, List.nil_append,
                List.append_nil] at hpA hpB hbA hbB
              rcases qops with _ | ⟨hd, t⟩
              · cases hstep
                show Inv1 (Sys.mk [⟨[], [], true, true, true, []⟩] n st
                  (sl ++ [(eid, oc)]))
                simp only [List.map_nil, List.append_nil] at hpA hpB hbA hbB
                refine ⟨rfl, rfl, by simp [queueAt_zero], by simp [queueAt_zero], by simp [queueAt_zero], ?_, ?_, ?_, ?_⟩
                · simpa [orderChain, startedEids, notStartedEids, opsEids, queueAt_zero]
                    using hpA
                · simp only [settleChain, settledEids, runningEids, notStartedEids, opsEids,
                    queueAt_zero, List.map_append, List.map_cons, List.map_nil,
                    List.filterMap_nil, List.append_nil]
                  simpa [List.singleton_append] using hpB
                · simpa [orderChain, startedEids, notStartedEids, opsEids, queueAt_zero]
                    using hbA
                · simp only [settleChain, settledEids, runningEids, notStartedEids, opsEids,
                    queueAt_zero, List.map_append, List.map_cons, List.map_nil,
                    List.filterMap_nil, List.append_nil]
                  simpa [List.singleton_append] using hbB
              · cases hstep
                show Inv1 (Sys.mk
                  [⟨[], t, false, false, false, [.depWait hd []]⟩] n st
                  (sl ++ [(eid, oc)]))
                refine ⟨rfl, rfl, by simp [queueAt_zero], by simp [queueAt_zero], by simp [queueAt_zero], ?_, ?_, ?_, ?_⟩
                · simp only [orderChain, startedEids, notStartedEids, opsEids, queueAt_zero,
                    List.filterMap_cons, List.filterMap_nil, List.map_cons, List.append_nil,
                    List.append_assoc, List.singleton_append]
                  simpa [List.singleton_append] using hpA
                · simp only [settleChain, settledEids, runningEids, notStartedEids, opsEids,
                    queueAt_zero, List.map_append, List.map_cons, List.map_nil,
                    List.filterMap_cons, List.filterMap_nil, List.append_nil,
                    List.append_assoc, List.singleton_append]
                  simpa [List.singleton_append] using hpB
                · simp only [orderChain, startedEids, notStartedEids, opsEids, queueAt_zero,
                    List.filterMap_cons, List.filterMap_nil, List.map_cons, List.append_nil,
                    List.append_assoc, List.singleton_append]
                  simpa [List.singleton_append] using hbA
                · simp only [settleChain, settledEids, runningEids, notStartedEids, opsEids,
                    queueAt_zero, List.map_append, List.map_cons, List.map_nil,
                    List.filterMap_cons, List.filterMap_nil, List.append_nil,
                    List.append_assoc, List.singleton_append]
                  simpa [List.singleton_append] using hbB

theorem reach_trans {s0 s1 s2 : Sys} {ok : Event → Bool}
    (h1 : Reach s0 ok s1) (h2 : Reach s1 ok s2) : Reach s0 ok s2 := by
  induction h2 with
  | refl => exact h1
  | tail hr hok hstep ih => exact Reach.tail ih hok hstep

theorem reach_of_runTrace {ok : Event → Bool} :
    ∀ {tr : List Event} {s0 s : Sys}, tr.all ok = true → runTrace s0 tr = some s →
      Reach s0 ok s := by
  intro tr
  induction tr with
  | nil =>
      intro s0 s hall hrun
      cases hrun
      exact Reach.refl
  | cons ev tr ih =>
      intro s0 s hall hrun
      simp only [List.all_cons, Bool.and_eq_true] at hall
      simp only [runTrace] at hrun
      rcases hstep : step s0 ev with _ | s1
      · rw [hstep] at hrun
        exact Option.noConfusion hrun
      · rw [hstep] at hrun
        exact reach_trans (Reach.tail Reach.refl hall.1 hstep) (ih hall.2 hrun)

theorem deadQ_step {st0 : List (Nat × Nat)} {s s' : Sys} {ev : Event}
    (hd : DeadQ st0 s) (hok : evBasic ev = true) (hstep : step s ev = some s') :
    DeadQ st0 s' := by
  obtain ⟨hlen, hloops, hsus, hst⟩ := hd
  obtain ⟨qs, n, st, sl⟩ := s
  obtain ⟨q, rfl⟩ : ∃ q, qs = [q] := List.length_eq_one.mp hlen
  obtain ⟨qd, qops, qsus, qcur, qall, qloops⟩ := q
  have hql : qloops = [] := hloops
  have hqs : qsus = false := hsus
  subst hql hqs
  cases ev with
  | clear i => exact Bool.noConfusion hok
  | suspend i => exact Bool.noConfusion hok
  | resume i => exact Bool.noConfusion hok
  | addDep i j m => exact Bool.noConfusion hok
  | enqueue i k =>
      simp only [step] at hstep
      split at hstep
      case isFalse => exact Option.noConfusion hstep
      case isTrue hlt =>
        have hi : i = 0 := by
          simpa using Nat.lt_one_iff.mp (by simpa using hlt)
        subst hi
        split at hstep
        case isTrue hsus2 =>
          exact Bool.noConfusion (show false = true from hsus2)
        case isFalse hsus2 =>
          cases hstep
          exact ⟨rfl, rfl, rfl, hst⟩
  | startOp i j =>
      rcases i with _ | i2
      · exact Option.noConfusion hstep
      · exact Option.noConfusion hstep
  | complete i j =>
      rcases i with _ | i2
      · exact Option.noConfusion hstep
      · exact Option.noConfusion hstep

theorem deadQ_runTrace {st0 : List (Nat × Nat)} {s s' : Sys} {tr : List Event}
    (hd : DeadQ st0 s) (hall : tr.all evBasic = true) (hrun : runTrace s tr = some s') :
    DeadQ st0 s' := by
  induction tr generalizing s with
  | nil =>
      cases hrun
      exact hd
  | cons ev tr ih =>
      simp only [List.all_cons, Bool.and_eq_true] at hall
      simp only [runTrace] at hrun
      rcases hstep : step s ev with _ | s1
      · rw [hstep] at hrun
        exact Option.noConfusion hrun
      · rw [hstep] at hrun
        exact ih (deadQ_step hd hall.1 hstep) hall.2 hrun

theorem setQueue_length (s : Sys) (i : Nat) (q : QueueState) :
    (s.setQueue i q).queues.length = s.queues.length :=
  List.length_set s.queues i q

theorem queueAt_setQueue_self {s : Sys} {i : Nat} (q : QueueState)
    (hlt : i < s.queues.length) : (s.setQueue i q).queueAt i = q := by
  unfold Sys.setQueue Sys.queueAt
  rw [List.getD_eq_getElem?_getD]
  simp [List.getElem?_set_self, hlt]

theorem queueAt_setQueue_ne {s : Sys} {i j : Nat} (q : QueueState) (hne : i ≠ j) :
    (s.setQueue i q).queueAt j = s.queueAt j := by
  unfold Sys.setQueue Sys.queueAt
  rw [List.getD_eq_getElem?_getD, List.getD_eq_getElem?_getD, List.getElem?_set_ne hne]

theorem gateOpen_setQueue_ne {s : Sys} {i j : Nat} (q : QueueState) (g : GateKind)
    (hne : i ≠ j) : gateOpen (s.setQueue i q) j g = gateOpen s j g := by
  unfold gateOpen
  rw [queueAt_setQueue_ne q hne]

theorem mem_setMode (deps : List (Nat × DependencyMode)) (j : Nat) (m : DependencyMode) :
    (j, m) ∈ setMode deps j m := by
  unfold setMode
  split
  case isTrue hany =>
    obtain ⟨p, hp, hpj⟩ := List.any_eq_true.mp hany
    refine List.mem_map.mpr ⟨p, hp, ?_⟩
    rw [if_pos (of_decide_eq_true hpj)]
  case isFalse =>
    exact List.mem_append.mpr (Or.inr (by simp))

theorem depPending_mem_iff (s : Sys) (deps : List (Nat × DependencyMode))
    (jq : Nat) (g : GateKind) :
    (jq, g) ∈ depPending s deps ↔
      (gateOpen s jq g = false ∧ ∃ m, (jq, m) ∈ deps ∧ gateTarget m = g) := by
  constructor
  · intro hmem
    obtain ⟨hmap, hflt⟩ := List.mem_filter.mp hmem
    obtain ⟨p, hp, hpe⟩ := List.mem_map.mp hmap
    simp only [Prod.mk.injEq] at hpe
    obtain ⟨hp1, hp2⟩ := hpe
    refine ⟨by simpa using hflt, p.2, ?_, hp2⟩
    have hpp : p = (jq, p.2) := Prod.ext hp1 rfl
    rw [← hpp]
    exact hp
  · rintro ⟨hog, m, hm, hgt⟩
    refine List.mem_filter.mpr ⟨List.mem_map.mpr ⟨(jq, m), hm, ?_⟩, ?_⟩
    · rw [hgt]
    · simp [hog]

theorem step_enqueue_susp {s : Sys} {i : Nat} {k : OpKind}
    (hlt : i < s.queues.length) (hsus : (s.queueAt i).suspended = true) :
    step s (.enqueue i k) = some (runNextSync (enqKick s i k) i) := by
  simp only [step, if_pos hlt]
  rw [if_pos hsus]
  rfl

theorem enqPushed_queueAt {s : Sys} {i : Nat} (k : OpKind) (hlt : i < s.queues.length) :
    (enqPushed s i k).queueAt i =
      { s.queueAt i with operations := (s.queueAt i).operations ++ [⟨s.nextId, k⟩] } :=
  queueAt_setQueue_self _ hlt

theorem enqPushed_length (s : Sys) (i : Nat) (k : OpKind) :
    (enqPushed s i k).queues.length = s.queues.length :=
  setQueue_length s i _

theorem enqKick_length (s : Sys) (i : Nat) (k : OpKind) :
    (enqKick s i k).queues.length = s.queues.length := by
  have e1 : (enqKick s i k).queues.length = (enqPushed s i k).queues.length :=
    setQueue_length _ _ _
  exact e1.trans (enqPushed_length s i k)

theorem enqKick_queueAt {s : Sys} {i : Nat} (k : OpKind) (hlt : i < s.queues.length) :
    (enqKick s i k).queueAt i =
      { s.queueAt i with
          operations := (s.queueAt i).operations ++ [⟨s.nextId, k⟩],
          suspended := false } := by
  have h2 : (enqKick s i k).queueAt i =
      { (enqPushed s i k).queueAt i with suspended := false } :=
    queueAt_setQueue_self _ (by rw [enqPushed_length]; exact hlt)
  rw [h2, enqPushed_queueAt k hlt]

theorem enqKick_gateOpen_ne {s : Sys} {i jq : Nat} (k : OpKind) (g : GateKind)
    (hne : jq ≠ i) : gateOpen (enqKick s i k) jq g = gateOpen s jq g := by
  have h2 : gateOpen (enqKick s i k) jq g = gateOpen (enqPushed s i k) jq g :=
    gateOpen_setQueue_ne _ _ (fun hh => hne hh.symm)
  have h3 : gateOpen (enqPushed s i k) jq g = gateOpen s jq g :=
    gateOpen_setQueue_ne _ _ (fun hh => hne hh.symm)
  exact h2.trans h3

theorem ready_after_kick {X : Sys} {i : Nat} {e : Entry}
    (hlt : i < X.queues.length)
    (hq : (X.queueAt i).operations = [e])
    (hloops : (X.queueAt i).loops = [])
    (hdeps : ∀ p ∈ (X.queueAt i).dependencies,
      p.1 ≠ i ∧ gateOpen X p.1 (gateTarget p.2) = true) :
    ((runNextSync X i).queueAt i).loops = [.depWait e []] ∧
    (step (runNextSync X i) (.startOp i 0)).isSome = true := by
  have hcons : (X.queueAt i).operations = e :: [] := hq
  have hpend : depPending (dequeue1 X i []) (X.queueAt i).dependencies = [] := by
    unfold depPending
    rw [List.filter_eq_nil_iff]
    intro a ha
    obtain ⟨p, hp, rfl⟩ := List.mem_map.mp ha
    obtain ⟨hne, hopen⟩ := hdeps p hp
    have hgo : gateOpen (dequeue1 X i []) p.1 (gateTarget p.2) = true := by
      unfold dequeue1
      rw [gateOpen_setQueue_ne _ _ (fun hh => hne hh.symm)]
      exact hopen
    simp [hgo]
  have hltd : i < (dequeue1 X i []).queues.length := by
    unfold dequeue1
    rw [setQueue_length]
    exact hlt
  have hYl : ((dequeue1 X i []).queueAt i).loops = [] := by
    have hY : (dequeue1 X i []).queueAt i =
        ({ X.queueAt i with operations := [], currentSig := false, allSig := false }) :=
      queueAt_setQueue_self _ hlt
    rw [hY]
    exact hloops
  have hfin : ((runNextSync X i).queueAt i).loops = [.depWait e []] := by
    rw [runNextSync_cons hcons]
    rw [queueAt_setQueue_self _ hltd]
    show ((dequeue1 X i []).queueAt i).loops ++
      [.depWait e (depPending (dequeue1 X i []) (X.queueAt i).dependencies)] =
      [.depWait e []]
    rw [hpend, hYl]
    rfl
  refine ⟨hfin, ?_⟩
  simp only [step]
  rw [hfin]
  rcases e with ⟨eid0, k0⟩
  cases k0 <;> rfl

theorem queueAt_one (q0 q1 : QueueState) (qs : List QueueState) (n : Nat)
    (st : List (Nat × Nat)) (sl : List (Nat × Except Nat Nat)) :
    (Sys.mk (q0 :: q1 :: qs) n st sl).queueAt 1 = q1 := rfl

theorem setQueue_one (q0 q1 q1' : QueueState) (qs : List QueueState) (n : Nat)
    (st : List (Nat × Nat)) (sl : List (Nat × Except Nat Nat)) :
    (Sys.mk (q0 :: q1 :: qs) n st sl).setQueue 1 q1' = Sys.mk (q0 :: q1' :: qs) n st sl :=
  rfl

theorem depPending_single (s : Sys) (j : Nat) (m : DependencyMode) :
    depPending s [(j, m)] =
      if gateOpen s j (gateTarget m) = true then [] else [(j, gateTarget m)] := by
  unfold depPending
  cases hg : gateOpen s j (gateTarget m) <;> simp [List.filter, hg]

theorem pendingOf_clearWait (j : Nat) (g : GateKind) (l : LoopInst) :
    (clearWait j g l).pendingOf = l.pendingOf.filter (fun p => p ≠ (j, g)) := by
  cases l <;> rfl

theorem qInvPair_clearWait {q : QueueState} {other : Nat} {m : DependencyMode}
    (h : QInvPair q other m) (j : Nat) (g : GateKind) :
    QInvPair { q with loops := q.loops.map (clearWait j g) } other m := by
  refine ⟨h.deps, ?_, ?_, h.suspOps, ?_, h.opsRet, ?_⟩
  · show (q.loops.map (clearWait j g)).length ≤ 1
    rw [List.length_map]
    exact h.len
  · show q.suspended = true ↔ q.loops.map (clearWait j g) = []
    rw [List.map_eq_nil_iff]
    exact h.suspIff
  · intro hc
    show q.loops.map (clearWait j g) ≠ []
    rw [Ne, List.map_eq_nil_iff]
    exact h.curLoops hc
  · intro l hl
    obtain ⟨l0, hl0, rfl⟩ := List.mem_map.mp hl
    obtain ⟨hret, hshape⟩ := h.loopsOk l0 hl0
    refine ⟨by rw [entryOf_clearWait]; exact hret, ?_⟩
    intro p hp
    rw [pendingOf_clearWait] at hp
    exact hshape p (List.mem_of_mem_filter hp)

theorem blockedOn_clearWait_self {q : QueueState} {other : Nat}
    (hshape : ∀ l ∈ q.loops, ∀ p ∈ l.pendingOf, p = (other, GateKind.current)) :
    ¬BlockedOn { q with loops := q.loops.map (clearWait other .current) } other := by
  rintro ⟨l, hl, hp⟩
  obtain ⟨l0, hl0, rfl⟩ := List.mem_map.mp hl
  rw [pendingOf_clearWait] at hp
  have := List.of_mem_filter hp
  simp at this

theorem blockedOn_mono_clearWait {q : QueueState} {other j : Nat} {g : GateKind}
    (h : BlockedOn { q with loops := q.loops.map (clearWait j g) } other) :
    BlockedOn q other := by
  obtain ⟨l, hl, hp⟩ := h
  obtain ⟨l0, hl0, rfl⟩ := List.mem_map.mp hl
  rw [pendingOf_clearWait] at hp
  exact ⟨l0, hl0, List.mem_of_mem_filter hp⟩

theorem not_blockedOn_nil {q : QueueState} {other : Nat} (h : q.loops = []) :
    ¬BlockedOn q other := by
  rintro ⟨l, hl, hp⟩
  rw [h] at hl
  exact absurd hl (List.not_mem_nil l)

theorem invM_init {mA mB : DependencyMode} (hmA : gateTarget mA = .current)
    (hmB : gateTarget mB = .current) : InvM mA mB (mutualInit mA mB) := by
  refine ⟨rfl, ?_, ?_, ?_, ?_, ?_⟩
  · exact ⟨rfl, by simp [mutualInit, mkQueue, queueAt_zero],
      by simp [mutualInit, mkQueue, queueAt_zero],
      by simp [mutualInit, mkQueue, queueAt_zero],
      by simp [mutualInit, mkQueue, queueAt_zero],
      by simp [mutualInit, mkQueue, queueAt_zero],
      by simp [mutualInit, mkQueue, queueAt_zero]⟩
  · exact ⟨rfl, by simp [mutualInit, mkQueue, queueAt_one],
      by simp [mutualInit, mkQueue, queueAt_one],
      by simp [mutualInit, mkQueue, queueAt_one],
      by simp [mutualInit, mkQueue, queueAt_one],
      by simp [mutualInit, mkQueue, queueAt_one],
      by simp [mutualInit, mkQueue, queueAt_one]⟩
  · intro hb
    exact absurd hb (not_blockedOn_nil rfl)
  · intro hb
    exact absurd hb (not_blockedOn_nil rfl)
  · rintro ⟨hb, -⟩
    exact absurd hb (not_blockedOn_nil rfl)

theorem runNextSync_pair_zero (d : List (Nat × DependencyMode)) (e : Entry)
    (t : List Entry) (sus c a : Bool) (lp : List LoopInst) (B : QueueState) (n : Nat)
    (st : List (Nat × Nat)) (sl : List (Nat × Except Nat Nat)) :
    runNextSync (Sys.mk [⟨d, e :: t, sus, c, a, lp⟩, B] n st sl) 0 =
      Sys.mk [⟨d, t, sus, false, false,
        lp ++ [.depWait e
          (depPending (Sys.mk [⟨d, t, sus, false, false, lp⟩, B] n st sl) d)]⟩,
        B] n st sl := by
  rw [runNextSync_cons (show ((Sys.mk [⟨d, e :: t, sus, c, a, lp⟩, B] n st sl).queueAt
    0).operations = e :: t from rfl)]
  rfl

theorem runNextSync_pair_one (d : List (Nat × DependencyMode)) (e : Entry)
    (t : List Entry) (sus c a : Bool) (lp : List LoopInst) (A : QueueState) (n : Nat)
    (st : List (Nat × Nat)) (sl : List (Nat × Except Nat Nat)) :
    runNextSync (Sys.mk [A, ⟨d, e :: t, sus, c, a, lp⟩] n st sl) 1 =
      Sys.mk [A, ⟨d, t, sus, false, false,
        lp ++ [.depWait e
          (depPending (Sys.mk [A, ⟨d, t, sus, false, false, lp⟩] n st sl) d)]⟩]
        n st sl := by
  rw [runNextSync_cons (show ((Sys.mk [A, ⟨d, e :: t, sus, c, a, lp⟩] n st sl).queueAt
    1).operations = e :: t from rfl)]
  rfl

theorem runNextSync_pair_zero_nil (d : List (Nat × DependencyMode)) (sus c a : Bool)
    (lp : List LoopInst) (B : QueueState) (n : Nat) (st : List (Nat × Nat))
    (sl : List (Nat × Except Nat Nat)) :
    runNextSync (Sys.mk [⟨d, [], sus, c, a, lp⟩, B] n st sl) 0 =
      Sys.mk [⟨d, [], true, c, true, lp.map (clearWait 0 .all)⟩,
        { B with loops := B.loops.map (clearWait 0 .all) }] n st sl := by
  rw [runNextSync_nil (show ((Sys.mk [⟨d, [], sus, c, a, lp⟩, B] n st sl).queueAt
    0).operations = [] from rfl)]
  rfl

theorem runNextSync_pair_one_nil (d : List (Nat × DependencyMode)) (sus c a : Bool)
    (lp : List LoopInst) (A : QueueState) (n : Nat) (st : List (Nat × Nat))
    (sl : List (Nat × Except Nat Nat)) :
    runNextSync (Sys.mk [A, ⟨d, [], sus, c, a, lp⟩] n st sl) 1 =
      Sys.mk [{ A with loops := A.loops.map (clearWait 1 .all) },
        ⟨d, [], true, c, true, lp.map (clearWait 1 .all)⟩] n st sl := by
  rw [runNextSync_nil (show ((Sys.mk [A, ⟨d, [], sus, c, a, lp⟩] n st sl).queueAt
    1).operations = [] from rfl)]
  rfl

theorem qInvPair_push {d : List (Nat × DependencyMode)} {ops : List Entry}
    {c a : Bool} {lps : List LoopInst} {other : Nat} {m : DependencyMode}
    (h : QInvPair ⟨d, ops, false, c, a, lps⟩ other m) (oc : Except Nat Nat) (n : Nat) :
    QInvPair ⟨d, ops ++ [⟨n, .ret oc⟩], false, c, a, lps⟩ other m := by
  refine ⟨h.deps, h.len, ?_, ?_, h.curLoops, ?_, h.loopsOk⟩
  · exact ⟨fun hh => absurd hh (by simp), fun hl => absurd (h.suspIff.mpr hl) (by simp)⟩
  · intro hh
    exact absurd hh (by simp)
  · intro e2 he2
    rcases List.mem_append.mp he2 with he2 | he2
    · exact h.opsRet e2 he2
    · simp only [List.mem_singleton] at he2
      subst he2
      rfl

theorem qInvPair_kick {t : List Entry} {h0 : Entry} {other : Nat} {m : DependencyMode}
    (pend : List (Nat × GateKind))
    (hpend : ∀ p ∈ pend, p = (other, GateKind.current))
    (hret : h0.kind.isRet = true)
    (htret : ∀ e ∈ t, e.kind.isRet = true) :
    QInvPair ⟨[(other, m)], t, false, false, false, [.depWait h0 pend]⟩ other m := by
  refine ⟨rfl, by simp, by simp, by simp, by simp, htret, ?_⟩
  intro l hl
  simp only [List.mem_singleton] at hl
  subst hl
  exact ⟨hret, hpend⟩

theorem qInvPair_drained {other : Nat} {m : DependencyMode} :
    QInvPair ⟨[(other, m)], [], true, true, true, []⟩ other m :=
  ⟨rfl, by simp, by simp, by simp, by simp, by simp, by simp⟩

theorem qInvPair_start {d : List (Nat × DependencyMode)} {ops : List Entry}
    {c a : Bool} {e : Entry} {other : Nat} {m : DependencyMode}
    (h : QInvPair ⟨d, ops, false, c, a, [.depWait e []]⟩ other m) :
    QInvPair ⟨d, ops, false, c, a, [.running e]⟩ other m := by
  refine ⟨h.deps, by simp, by simp, by simp, fun _ => by simp, h.opsRet, ?_⟩
  intro l hl
  simp only [List.mem_singleton] at hl
  subst hl
  refine ⟨?_, by simp [LoopInst.pendingOf]⟩
  have := (h.loopsOk (.depWait e []) (by simp)).1
  exact this

theorem not_blockedOn_single_running {d : List (Nat × DependencyMode)}
    {ops : List Entry} {sus c a : Bool} {e : Entry} {other : Nat} :
    ¬BlockedOn (⟨d, ops, sus, c, a, [.running e]⟩ : QueueState) other := by
  rintro ⟨l, hl, hp⟩
  simp only [List.mem_singleton] at hl
  subst hl
  simp [LoopInst.pendingOf] at hp

theorem not_blockedOn_ready {d : List (Nat × DependencyMode)}
    {ops : List Entry} {sus c a : Bool} {e : Entry} {other : Nat} :
    ¬BlockedOn (⟨d, ops, sus, c, a, [.depWait e []]⟩ : QueueState) other := by
  rintro ⟨l, hl, hp⟩
  simp only [List.mem_singleton] at hl
  subst hl
  simp [LoopInst.pendingOf] at hp

theorem invM_step {mA mB : DependencyMode} {s s' : Sys} {ev : Event}
    (hmA : gateTarget mA = .current) (hmB : gateTarget mB = .current)
    (hi : InvM mA mB s) (hok : evPair ev = true) (hstep : step s ev = some s') :
    InvM mA mB s' := by
  obtain ⟨hlen, hqa, hqb, hj5a, hj5b, hj3⟩ := hi
  obtain ⟨qs, n, st, sl⟩ := s
  obtain ⟨A, B, rfl⟩ : ∃ a b, qs = [a, b] := List.length_eq_two.mp hlen
  obtain ⟨ad, aops, asus, acur, aall, aloops⟩ := A
  obtain ⟨bd, bops, bsus, bcur, ball, bloops⟩ := B
  have had : ad = [(1, mA)] := hqa.deps
  have hbd : bd = [(0, mB)] := hqb.deps
  subst had hbd
  cases ev with
  | clear i => exact Bool.noConfusion hok
  | suspend i => exact Bool.noConfusion hok
  | resume i => exact Bool.noConfusion hok
  | addDep i j m => exact Bool.noConfusion hok
  | enqueue i k =>
      rcases k with oc | err
      case throwSync => exact Bool.noConfusion hok
      case ret =>
        simp only [step] at hstep
        split at hstep
        case isFalse => exact Option.noConfusion hstep
        case isTrue hlt =>
          rcases i with _ | _ | i2
          case succ.succ => exact absurd hlt (by simp)
          case zero =>
            split at hstep
            case isTrue hsus =>
              have hasus : asus = true := hsus
              subst hasus
              have hal : aloops = [] := hqa.suspIff.mp rfl
              have hao : aops = [] := hqa.suspOps rfl
              subst hal hao
              cases hstep
              show InvM mA mB (runNextSync (Sys.mk
                [⟨[(1, mA)], [⟨n, .ret oc⟩], false, acur, aall, []⟩,
                 ⟨[(0, mB)], bops, bsus, bcur, ball, bloops⟩] (n + 1) st sl) 0)
              rw [runNextSync_pair_zero, depPending_single, hmA]
              simp only [gateOpen, queueAt_one]
              cases bcur with
              | true =>
                  rw [if_pos rfl]
                  refine ⟨rfl, ?_, hqb, ?_, ?_, ?_⟩
                  · exact qInvPair_kick [] (by simp) rfl (by simp)
                  · intro hb
                    exact absurd hb not_blockedOn_ready
                  · intro hb
                    exact absurd rfl (hj5b hb).2
                  · rintro ⟨hbA, -⟩
                    exact absurd hbA not_blockedOn_ready
              | false =>
                  rw [if_neg (by simp)]
                  refine ⟨rfl, ?_, hqb, ?_, ?_, ?_⟩
                  · exact qInvPair_kick [(1, .current)] (by simp) rfl (by simp)
                  · intro hb
                    exact ⟨rfl, hqb.curLoops rfl⟩
                  · intro hb
                    exact absurd rfl (hj5b hb).2
                  · rintro ⟨-, hbB⟩
                    exact absurd rfl (hj5b hbB).2
            case isFalse hsus =>
              have hasus : asus = false := by
                cases asus
                · rfl
                · exact absurd rfl hsus
              subst hasus
              cases hstep
              show InvM mA mB (Sys.mk
                [⟨[(1, mA)], aops ++ [⟨n, .ret oc⟩], false, acur, aall, aloops⟩,
                 ⟨[(0, mB)], bops, bsus, bcur, ball, bloops⟩] (n + 1) st sl)
              exact ⟨rfl, qInvPair_push hqa oc n, hqb, hj5a, hj5b, hj3⟩
          case succ.zero =>
            split at hstep
            case isTrue hsus =>
              have hbsus : bsus = true := hsus
              subst hbsus
              have hbl : bloops = [] := hqb.suspIff.mp rfl
              have hbo : bops = [] := hqb.suspOps rfl
              subst hbl hbo
              cases hstep
              show InvM mA mB (runNextSync (Sys.mk
                [⟨[(1, mA)], aops, asus, acur, aall, aloops⟩,
                 ⟨[(0, mB)], [⟨n, .ret oc⟩], false, bcur, ball, []⟩] (n + 1) st sl) 1)
              rw [runNextSync_pair_one, depPending_single, hmB]
              simp only [gateOpen, queueAt_zero]
              cases acur with
              | true =>
                  rw [if_pos rfl]
                  refine ⟨rfl, hqa, ?_, ?_, ?_, ?_⟩
                  · exact qInvPair_kick [] (by simp) rfl (by simp)
                  · intro hb
                    exact absurd rfl (hj5a hb).2
                  · intro hb
                    exact absurd hb not_blockedOn_ready
                  · rintro ⟨hbA, -⟩
                    exact absurd rfl (hj5a hbA).2
              | false =>
                  rw [if_neg (by simp)]
                  refine ⟨rfl, hqa, ?_, ?_, ?_, ?_⟩
                  · exact qInvPair_kick [(0, .current)] (by simp) rfl (by simp)
                  · intro hb
                    exact absurd rfl (hj5a hb).2
                  · intro hb
                    exact ⟨rfl, hqa.curLoops rfl⟩
                  · rintro ⟨hbA, -⟩
                    exact absurd rfl (hj5a hbA).2
            case isFalse hsus =>
              have hbsus : bsus = false := by
                cases bsus
                · rfl
                · exact absurd rfl hsus
              subst hbsus
              cases hstep
              show InvM mA mB (Sys.mk
                [⟨[(1, mA)], aops, asus, acur, aall, aloops⟩,
                 ⟨[(0, mB)], bops ++ [⟨n, .ret oc⟩], false, bcur, ball, bloops⟩] (n + 1) st sl)
              exact ⟨rfl, hqa, qInvPair_push hqb oc n, hj5a, hj5b, hj3⟩
  | startOp i j =>
      rcases i with _ | _ | i2
      case succ.succ => exact Option.noConfusion hstep
      case zero =>
        simp only [step, queueAt_zero] at hstep
        rcases hget : aloops.get? j with _ | inst
        · rw [hget] at hstep
          exact Option.noConfusion hstep
        · obtain ⟨hq, hj⟩ := get_of_len_le_one hqa.len hget
          rcases inst with ⟨e, pending⟩ | e
          · rcases pending with _ | ⟨p, ps⟩
            · subst hq hj
              obtain ⟨eid, kind⟩ := e
              rcases kind with oc | err
              case throwSync =>
                exact absurd (hqa.loopsOk (.depWait ⟨eid, .throwSync err⟩ [])
                  (List.mem_singleton_self _)).1
                  (by simp [LoopInst.entryOf, OpKind.isRet])
              case ret =>
                have hasus : asus = false := by
                  cases asus
                  · rfl
                  · exact List.noConfusion
                      (show [LoopInst.depWait ⟨eid, OpKind.ret oc⟩ []] = []
                        from hqa.suspIff.mp rfl)
                subst hasus
                cases hstep
                show InvM mA mB (Sys.mk
                  [⟨[(1, mA)], aops, false, acur, aall, [.running ⟨eid, .ret oc⟩]⟩,
                   ⟨[(0, mB)], bops, bsus, bcur, ball, bloops⟩] n (st ++ [(0, eid)]) sl)
                refine ⟨rfl, qInvPair_start hqa, hqb, ?_, ?_, ?_⟩
                · intro hb
                  exact absurd hb not_blockedOn_single_running
                · intro hb
                  exact ⟨(hj5b hb).1, by simp [queueAt_zero]⟩
                · rintro ⟨hbA, -⟩
                  exact absurd hbA not_blockedOn_single_running
            · rw [hget] at hstep
              exact Option.noConfusion hstep
          · rw [hget] at hstep
            exact Option.noConfusion hstep
      case succ.zero =>
        replace hstep : step (Sys.mk
            [⟨[(1, mA)], aops, asus, acur, aall, aloops⟩,
             ⟨[(0, mB)], bops, bsus, bcur, ball, bloops⟩] n st sl)
            (.startOp 1 j) = some s' := hstep
        simp only [step, queueAt_one] at hstep
        rcases hget : bloops.get? j with _ | inst
        · rw [hget] at hstep
          exact Option.noConfusion hstep
        · obtain ⟨hq, hj⟩ := get_of_len_le_one hqb.len hget
          rcases inst with ⟨e, pending⟩ | e
          · rcases pending with _ | ⟨p, ps⟩
            · subst hq hj
              obtain ⟨eid, kind⟩ := e
              rcases kind with oc | err
              case throwSync =>
                exact absurd (hqb.loopsOk (.depWait ⟨eid, .throwSync err⟩ [])
                  (List.mem_singleton_self _)).1
                  (by simp [LoopInst.entryOf, OpKind.isRet])
              case ret =>
                have hbsus : bsus = false := by
                  cases bsus
                  · rfl
                  · exact List.noConfusion
                      (show [LoopInst.depWait ⟨eid, OpKind.ret oc⟩ []] = []
                        from hqb.suspIff.mp rfl)
                subst hbsus
                cases hstep
                show InvM mA mB (Sys.mk
                  [⟨[(1, mA)], aops, asus, acur, aall, aloops⟩,
                   ⟨[(0, mB)], bops, false, bcur, ball, [.running ⟨eid, .ret oc⟩]⟩]
                  n (st ++ [(1, eid)]) sl)
                refine ⟨rfl, hqa, qInvPair_start hqb, ?_, ?_, ?_⟩
                · intro hb
                  exact ⟨(hj5a hb).1, by simp [queueAt_one]⟩
                · intro hb
                  exact absurd hb not_blockedOn_single_running
                · rintro ⟨-, hbB⟩
                  exact absurd hbB not_blockedOn_single_running
            · rw [hget] at hstep
              exact Option.noConfusion hstep
          · rw [hget] at hstep
            exact Option.noConfusion hstep
  | complete i j =>
      rcases i with _ | _ | i2
      case succ.succ => exact Option.noConfusion hstep
      case zero =>
        simp only [step, queueAt_zero] at hstep
        rcases hget : aloops.get? j with _ | inst
        · rw [hget] at hstep
          exact Option.noConfusion hstep
        · obtain ⟨hq, hj⟩ := get_of_len_le_one hqa.len hget
          rcases inst with ⟨e, pending⟩ | e
          · rw [hget] at hstep
            exact Option.noConfusion hstep
          · subst hq hj
            obtain ⟨eid, kind⟩ := e
            rcases kind with oc | err
            case throwSync => exact Option.noConfusion hstep
            case ret =>
              have hasus : asus = false := by
                cases asus
                · rfl
                · exact List.noConfusion
                    (show [LoopInst.running ⟨eid, OpKind.ret oc⟩] = []
                      from hqa.suspIff.mp rfl)
              subst hasus
              cases hstep
              show InvM mA mB (runNextSync (Sys.mk
                [⟨[(1, mA)], aops, false, true, aall, []⟩,
                 ⟨[(0, mB)], bops, bsus, bcur, ball, bloops.map (clearWait 0 .current)⟩]
                n st (sl ++ [(eid, oc)])) 0)
              have hshape := fun l hl => (hqb.loopsOk l hl).2
              rcases aops with _ | ⟨h0, t⟩
              · rw [runNextSync_pair_zero_nil]
                refine ⟨rfl, qInvPair_drained, ?_, ?_, ?_, ?_⟩
                · exact qInvPair_clearWait (qInvPair_clearWait hqb 0 .current) 0 .all
                · intro hb
                  exact absurd hb (not_blockedOn_nil rfl)
                · intro hb
                  exact absurd (blockedOn_mono_clearWait hb)
                    (blockedOn_clearWait_self hshape)
                · rintro ⟨hbA, -⟩
                  exact absurd hbA (not_blockedOn_nil rfl)
              · rw [runNextSync_pair_zero, depPending_single, hmA]
                simp only [gateOpen, queueAt_one]
                cases bcur with
                | true =>
                    rw [if_pos rfl]
                    refine ⟨rfl, ?_, ?_, ?_, ?_, ?_⟩
                    · exact qInvPair_kick [] (by simp)
                        (hqa.opsRet h0 (by simp [queueAt_zero]))
                        (fun e2 he2 => hqa.opsRet e2 (by simp [queueAt_zero, he2]))
                    · exact qInvPair_clearWait hqb 0 .current
                    · intro hb
                      exact absurd hb not_blockedOn_ready
                    · intro hb
                      exact absurd hb (blockedOn_clearWait_self hshape)
                    · rintro ⟨hbA, -⟩
                      exact absurd hbA not_blockedOn_ready
                | false =>
                    rw [if_neg (by simp)]
                    refine ⟨rfl, ?_, ?_, ?_, ?_, ?_⟩
                    · exact qInvPair_kick [(1, .current)] (by simp)
                        (hqa.opsRet h0 (by simp [queueAt_zero]))
                        (fun e2 he2 => hqa.opsRet e2 (by simp [queueAt_zero, he2]))
                    · exact qInvPair_clearWait hqb 0 .current
                    · intro hb
                      refine ⟨rfl, ?_⟩
                      show bloops.map (clearWait 0 GateKind.current) ≠ []
                      rw [Ne, List.map_eq_nil_iff]
                      exact hqb.curLoops rfl
                    · intro hb
                      exact absurd hb (blockedOn_clearWait_self hshape)
                    · rintro ⟨-, hbB⟩
                      exact absurd hbB (blockedOn_clearWait_self hshape)
      case succ.zero =>
        replace hstep : step (Sys.mk
            [⟨[(1, mA)], aops, asus, acur, aall, aloops⟩,
             ⟨[(0, mB)], bops, bsus, bcur, ball, bloops⟩] n st sl)
            (.complete 1 j) = some s' := hstep
        simp only [step, queueAt_one] at hstep
        rcases hget : bloops.get? j with _ | inst
        · rw [hget] at hstep
          exact Option.noConfusion hstep
        · obtain ⟨hq, hj⟩ := get_of_len_le_one hqb.len hget
          rcases inst with ⟨e, pending⟩ | e
          · rw [hget] at hstep
            exact Option.noConfusion hstep
          · subst hq hj
            obtain ⟨eid, kind⟩ := e
            rcases kind with oc | err
            case throwSync => exact Option.noConfusion hstep
            case ret =>
              have hbsus : bsus = false := by
                cases bsus
                · rfl
                · exact List.noConfusion
                    (show [LoopInst.running ⟨eid, OpKind.ret oc⟩] = []
                      from hqb.suspIff.mp rfl)
              subst hbsus
              cases hstep
              show InvM mA mB (runNextSync (Sys.mk
                [⟨[(1, mA)], aops, asus, acur, aall, aloops.map (clearWait 1 .current)⟩,
                 ⟨[(0, mB)], bops, false, true, ball, []⟩]
                n st (sl ++ [(eid, oc)])) 1)
              have hshape := fun l hl => (hqa.loopsOk l hl).2
              rcases bops with _ | ⟨h0, t⟩
              · rw [runNextSync_pair_one_nil]
                refine ⟨rfl, ?_, qInvPair_drained, ?_, ?_, ?_⟩
                · exact qInvPair_clearWait (qInvPair_clearWait hqa 1 .current) 1 .all
                · intro hb
                  exact absurd (blockedOn_mono_clearWait hb)
                    (blockedOn_clearWait_self hshape)
                · intro hb
                  exact absurd hb (not_blockedOn_nil rfl)
                · rintro ⟨-, hbB⟩
                  exact absurd hbB (not_blockedOn_nil rfl)
              · rw [runNextSync_pair_one, depPending_single, hmB]
                simp only [gateOpen, queueAt_zero]
                cases acur with
                | true =>
                    rw [if_pos rfl]
                    refine ⟨rfl, ?_, ?_, ?_, ?_, ?_⟩
                    · exact qInvPair_clearWait hqa 1 .current
                    · exact qInvPair_kick [] (by simp)
                        (hqb.opsRet h0 (by simp [queueAt_one]))
                        (fun e2 he2 => hqb.opsRet e2 (by simp [queueAt_one, he2]))
                    · intro hb
                      exact absurd hb (blockedOn_clearWait_self hshape)
                    · intro hb
                      exact absurd hb not_blockedOn_ready
                    · rintro ⟨hbA, -⟩
                      exact absurd hbA (blockedOn_clearWait_self hshape)
                | false =>
                    rw [if_neg (by simp)]
                    refine ⟨rfl, ?_, ?_, ?_, ?_, ?_⟩
                    · exact qInvPair_clearWait hqa 1 .current
                    · exact qInvPair_kick [(0, .current)] (by simp)
                        (hqb.opsRet h0 (by simp [queueAt_one]))
                        (fun e2 he2 => hqb.opsRet e2 (by simp [queueAt_one, he2]))
                    · intro hb
                      exact absurd hb (blockedOn_clearWait_self hshape)
                    · intro hb
                      refine ⟨rfl, ?_⟩
                      show aloops.map (clearWait 1 GateKind.current) ≠ []
                      rw [Ne, List.map_eq_nil_iff]
                      exact hqa.curLoops rfl
                    · rintro ⟨hbA, -⟩
                      exact absurd hbA (blockedOn_clearWait_self hshape)

theorem invM_of_reach {mA mB : DependencyMode} {s : Sys}
    (hmA : gateTarget mA = .current) (hmB : gateTarget mB = .current)
    (h : Reach (mutualInit mA mB) evPair s) : InvM mA mB s := by
  induction h with
  | refl => exact invM_init hmA hmB
  | tail hr hok hstep ih => exact invM_step hmA hmB ih hok hstep

theorem len_le_one_shape {α : Type} {l : List α} (h : l.length ≤ 1) :
    l = [] ∨ ∃ a, l = [a] := by
  match l with
  | [] => exact Or.inl rfl
  | [a] => exact Or.inr ⟨a, rfl⟩
  | a :: b :: t => exact absurd h (by simp)

theorem invM_progress {mA mB : DependencyMode} {s : Sys}
    (hi : InvM mA mB s) (hw : hasWork s = true) : canStep s = true := by
  obtain ⟨hlen, hqa, hqb, hj5a, hj5b, hj3⟩ := hi
  obtain ⟨qs, n, st, sl⟩ := s
  obtain ⟨A, B, rfl⟩ : ∃ a b, qs = [a, b] := List.length_eq_two.mp hlen
  obtain ⟨ad, aops, asus, acur, aall, aloops⟩ := A
  obtain ⟨bd, bops, bsus, bcur, ball, bloops⟩ := B
  rcases len_le_one_shape (show aloops.length ≤ 1 from hqa.len) with rfl | ⟨la, rfl⟩
  · rcases len_le_one_shape (show bloops.length ≤ 1 from hqb.len) with rfl | ⟨lb, rfl⟩
    · have hasus : asus = true := hqa.suspIff.mpr rfl
      have hbsus : bsus = true := hqb.suspIff.mpr rfl
      subst hasus hbsus
      have haops : aops = [] := hqa.suspOps rfl
      have hbops : bops = [] := hqb.suspOps rfl
      subst haops hbops
      exact Bool.noConfusion (show false = true from hw)
    · rcases lb with ⟨eb, pend⟩ | eb
      · rcases pend with _ | ⟨q, qs2⟩
        · obtain ⟨eidb, kindb⟩ := eb
          rcases kindb with ocb | errb
          · rfl
          · rfl
        · have hq : q = (0, GateKind.current) :=
            (hqb.loopsOk (.depWait eb (q :: qs2)) (List.mem_singleton_self _)).2 q
              (List.mem_cons_self q qs2)
          exact absurd rfl (hj5b ⟨.depWait eb (q :: qs2), List.mem_singleton_self _,
            by rw [← hq]; exact List.mem_cons_self q qs2⟩).2
      · obtain ⟨eidb, kindb⟩ := eb
        rcases kindb with ocb | errb
        · rfl
        · exact absurd (hqb.loopsOk (.running ⟨eidb, .throwSync errb⟩)
            (List.mem_singleton_self _)).1 (by simp [LoopInst.entryOf, OpKind.isRet])
  · rcases la with ⟨ea, pend⟩ | ea
    · rcases pend with _ | ⟨p, ps⟩
      · obtain ⟨eida, kinda⟩ := ea
        rcases kinda with oca | erra
        · rfl
        · rfl
      · have hpq : p = (1, GateKind.current) :=
          (hqa.loopsOk (.depWait ea (p :: ps)) (List.mem_singleton_self _)).2 p
            (List.mem_cons_self p ps)
        have hbA : BlockedOn ((Sys.mk
            [⟨ad, aops, asus, acur, aall, [.depWait ea (p :: ps)]⟩,
             ⟨bd, bops, bsus, bcur, ball, bloops⟩] n st sl).queueAt 0) 1 :=
          ⟨.depWait ea (p :: ps), List.mem_singleton_self _,
            by rw [← hpq]; exact List.mem_cons_self p ps⟩
        have hmid := hj5a hbA
        rcases len_le_one_shape (show bloops.length ≤ 1 from hqb.len) with rfl | ⟨lb, rfl⟩
        · exact absurd rfl hmid.2
        · rcases lb with ⟨eb, pend2⟩ | eb
          · rcases pend2 with _ | ⟨q, qs2⟩
            · obtain ⟨eidb, kindb⟩ := eb
              rcases kindb with ocb | errb
              · rfl
              · rfl
            · have hq : q = (0, GateKind.current) :=
                (hqb.loopsOk (.depWait eb (q :: qs2)) (List.mem_singleton_self _)).2 q
                  (List.mem_cons_self q qs2)
              exact absurd ⟨hbA, ⟨.depWait eb (q :: qs2), List.mem_singleton_self _,
                by rw [← hq]; exact List.mem_cons_self q qs2⟩⟩ hj3
          · obtain ⟨eidb, kindb⟩ := eb
            rcases kindb with ocb | errb
            · rfl
            · exact absurd (hqb.loopsOk (.running ⟨eidb, .throwSync errb⟩)
                (List.mem_singleton_self _)).1 (by simp [LoopInst.entryOf, OpKind.isRet])
    · obtain ⟨eida, kinda⟩ := ea
      rcases kinda with oca | erra
      · rfl
      · exact absurd (hqa.loopsOk (.running ⟨eida, .throwSync erra⟩)
          (List.mem_singleton_self _)).1 (by simp [LoopInst.entryOf, OpKind.isRet])

theorem blocked0_no_start {mA mB : DependencyMode} {s : Sys}
    (hi : InvM mA mB s) (hb : BlockedOn (s.queueAt 0) 1) :
    ∀ j, step s (.startOp 0 j) = none := by
  obtain ⟨hlen, hqa, hqb, hj5a, hj5b, hj3⟩ := hi
  obtain ⟨qs, n, st, sl⟩ := s
  obtain ⟨A, B, rfl⟩ : ∃ a b, qs = [a, b] := List.length_eq_two.mp hlen
  obtain ⟨ad, aops, asus, acur, aall, aloops⟩ := A
  obtain ⟨l, hl, hp⟩ := hb
  have hl2 : l ∈ aloops := hl
  have haloops : aloops = [l] := by
    rcases len_le_one_shape (show aloops.length ≤ 1 from hqa.len) with h0 | ⟨la, h1⟩
    · rw [h0] at hl2
      exact absurd hl2 (List.not_mem_nil l)
    · rw [h1] at hl2 ⊢
      simp only [List.mem_singleton] at hl2
      rw [hl2]
  subst haloops
  rcases l with ⟨e, pend⟩ | e
  · rcases pend with _ | ⟨p, ps⟩
    · exact absurd hp (List.not_mem_nil _)
    · intro j
      rcases j with _ | j1
      · rfl
      · rfl
  · exact absurd hp (List.not_mem_nil _)

theorem blocked1_no_start {mA mB : DependencyMode} {s : Sys}
    (hi : InvM mA mB s) (hb : BlockedOn (s.queueAt 1) 0) :
    ∀ j, step s (.startOp 1 j) = none := by
  obtain ⟨hlen, hqa, hqb, hj5a, hj5b, hj3⟩ := hi
  obtain ⟨qs, n, st, sl⟩ := s
  obtain ⟨A, B, rfl⟩ : ∃ a b, qs = [a, b] := List.length_eq_two.mp hlen
  obtain ⟨bd, bops, bsus, bcur, ball, bloops⟩ := B
  obtain ⟨l, hl, hp⟩ := hb
  have hl2 : l ∈ bloops := hl
  have hbloops : bloops = [l] := by
    rcases len_le_one_shape (show bloops.length ≤ 1 from hqb.len) with h0 | ⟨lb, h1⟩
    · rw [h0] at hl2
      exact absurd hl2 (List.not_mem_nil l)
    · rw [h1] at hl2 ⊢
      simp only [List.mem_singleton] at hl2
      rw [hl2]
  subst hbloops
  rcases l with ⟨e, pend⟩ | e
  · rcases pend with _ | ⟨p, ps⟩
    · exact absurd hp (List.not_mem_nil _)
    · intro j
      rcases j with _ | j1
      · rfl
      · rfl
  · exact absurd hp (List.not_mem_nil _)

theorem blocked0_persist_step {mA mB : DependencyMode} {s s' : Sys} {ev : Event}
    (hi : InvM mA mB s) (hok : evPair ev = true)
    (hnc : isCompleteOn 1 ev = false) (hstep : step s ev = some s')
    (hb : BlockedOn (s.queueAt 0) 1) : BlockedOn (s'.queueAt 0) 1 := by
  obtain ⟨hlen, hqa, hqb, hj5a, hj5b, hj3⟩ := hi
  obtain ⟨qs, n, st, sl⟩ := s
  obtain ⟨A, B, rfl⟩ : ∃ a b, qs = [a, b] := List.length_eq_two.mp hlen
  obtain ⟨ad, aops, asus, acur, aall, aloops⟩ := A
  obtain ⟨bd, bops, bsus, bcur, ball, bloops⟩ := B
  have had : ad = [(1, mA)] := hqa.deps
  have hbd : bd = [(0, mB)] := hqb.deps
  subst had hbd
  obtain ⟨l, hl, hp⟩ := hb
  have hl2 : l ∈ aloops := hl
  have haloops : aloops = [l] := by
    rcases len_le_one_shape (show aloops.length ≤ 1 from hqa.len) with h0 | ⟨la, h1⟩
    · rw [h0] at hl2
      exact absurd hl2 (List.not_mem_nil l)
    · rw [h1] at hl2 ⊢
      simp only [List.mem_singleton] at hl2
      rw [hl2]
  subst haloops
  rcases l with ⟨e, pend⟩ | e
  case running => exact absurd hp (List.not_mem_nil _)
  case depWait =>
  rcases pend with _ | ⟨p, ps⟩
  case nil => exact absurd hp (List.not_mem_nil _)
  case cons =>
  have hasus : asus = false := by
    cases asus
    · rfl
    · exact List.noConfusion
        (show [LoopInst.depWait e (p :: ps)] = [] from hqa.suspIff.mp rfl)
  subst hasus
  cases ev with
  | clear i => exact Bool.noConfusion hok
  | suspend i => exact Bool.noConfusion hok
  | resume i => exact Bool.noConfusion hok
  | addDep i j m => exact Bool.noConfusion hok
  | enqueue i k =>
      rcases k with oc | err
      case throwSync => exact Bool.noConfusion hok
      case ret =>
        simp only [step] at hstep
        split at hstep
        case isFalse => exact Option.noConfusion hstep
        case isTrue hlt =>
          rcases i with _ | _ | i2
          case succ.succ => exact absurd hlt (by simp)
          case zero =>
            split at hstep
            case isTrue hsus => exact Bool.noConfusion (show false = true from hsus)
            case isFalse hsus =>
              cases hstep
              exact ⟨.depWait e (p :: ps), List.mem_singleton_self _, hp⟩
          case succ.zero =>
            split at hstep
            case isTrue hsus =>
              have hbsus : bsus = true := hsus
              subst hbsus
              have hbl : bloops = [] := hqb.suspIff.mp rfl
              have hbo : bops = [] := hqb.suspOps rfl
              subst hbl hbo
              cases hstep
              show BlockedOn ((runNextSync (Sys.mk
                [⟨[(1, mA)], aops, false, acur, aall, [.depWait e (p :: ps)]⟩,
                 ⟨[(0, mB)], [⟨n, .ret oc⟩], false, bcur, ball, []⟩]
                (n + 1) st sl) 1).queueAt 0) 1
              rw [runNextSync_pair_one]
              exact ⟨.depWait e (p :: ps), List.mem_singleton_self _, hp⟩
            case isFalse hsus =>
              cases hstep
              exact ⟨.depWait e (p :: ps), List.mem_singleton_self _, hp⟩
  | startOp i j =>
      rcases i with _ | _ | i2
      case succ.succ => exact Option.noConfusion hstep
      case zero =>
        rcases j with _ | j1
        · exact Option.noConfusion hstep
        · exact Option.noConfusion hstep
      case succ.zero =>
        replace hstep : step (Sys.mk
            [⟨[(1, mA)], aops, false, acur, aall, [.depWait e (p :: ps)]⟩,
             ⟨[(0, mB)], bops, bsus, bcur, ball, bloops⟩] n st sl)
            (.startOp 1 j) = some s' := hstep
        simp only [step, queueAt_one] at hstep
        rcases hget : bloops.get? j with _ | inst
        · rw [hget] at hstep
          exact Option.noConfusion hstep
        · obtain ⟨hq, hj⟩ := get_of_len_le_one hqb.len hget
          rcases inst with ⟨eb, pend2⟩ | eb
          · rcases pend2 with _ | ⟨q, qs2⟩
            · subst hq hj
              obtain ⟨eidb, kindb⟩ := eb
              rcases kindb with ocb | errb
              · cases hstep
                exact ⟨.depWait e (p :: ps), List.mem_singleton_self _, hp⟩
              · cases hstep
                exact ⟨.depWait e (p :: ps), List.mem_singleton_self _, hp⟩
            · rw [hget] at hstep
              exact Option.noConfusion hstep
          · rw [hget] at hstep
            exact Option.noConfusion hstep
  | complete i j =>
      rcases i with _ | _ | i2
      case succ.succ => exact Option.noConfusion hstep
      case zero =>
        rcases j with _ | j1
        · exact Option.noConfusion hstep
        · exact Option.noConfusion hstep
      case succ.zero => exact Bool.noConfusion (show true = false from hnc)

theorem blocked1_persist_step {mA mB : DependencyMode} {s s' : Sys} {ev : Event}
    (hi : InvM mA mB s) (hok : evPair ev = true)
    (hnc : isCompleteOn 0 ev = false) (hstep : step s ev = some s')
    (hb : BlockedOn (s.queueAt 1) 0) : BlockedOn (s'.queueAt 1) 0 := by
  obtain ⟨hlen, hqa, hqb, hj5a, hj5b, hj3⟩ := hi
  obtain ⟨qs, n, st, sl⟩ := s
  obtain ⟨A, B, rfl⟩ : ∃ a b, qs = [a, b] := List.length_eq_two.mp hlen
  obtain ⟨ad, aops, asus, acur, aall, aloops⟩ := A
  obtain ⟨bd, bops, bsus, bcur, ball, bloops⟩ := B
  have had : ad = [(1, mA)] := hqa.deps
  have hbd : bd = [(0, mB)] := hqb.deps
  subst had hbd
  obtain ⟨l, hl, hp⟩ := hb
  have hl2 : l ∈ bloops := hl
  have hbloops : bloops = [l] := by
    rcases len_le_one_shape (show bloops.length ≤ 1 from hqb.len) with h0 | ⟨lb, h1⟩
    · rw [h0] at hl2
      exact absurd hl2 (List.not_mem_nil l)
    · rw [h1] at hl2 ⊢
      simp only [List.mem_singleton] at hl2
      rw [hl2]
  subst hbloops
  rcases l with ⟨e, pend⟩ | e
  case running => exact absurd hp (List.not_mem_nil _)
  case depWait =>
  rcases pend with _ | ⟨p, ps⟩
  case nil => exact absurd hp (List.not_mem_nil _)
  case cons =>
  have hbsus : bsus = false := by
    cases bsus
    · rfl
    · exact List.noConfusion
        (show [LoopInst.depWait e (p :: ps)] = [] from hqb.suspIff.mp rfl)
  subst hbsus
  cases ev with
  | clear i => exact Bool.noConfusion hok
  | suspend i => exact Bool.noConfusion hok
  | resume i => exact Bool.noConfusion hok
  | addDep i j m => exact Bool.noConfusion hok
  | enqueue i k =>
      rcases k with oc | err
      case throwSync => exact Bool.noConfusion hok
      case ret =>
        simp only [step] at hstep
        split at hstep
        case isFalse => exact Option.noConfusion hstep
        case isTrue hlt =>
          rcases i with _ | _ | i2
          case succ.succ => exact absurd hlt (by simp)
          case succ.zero =>
            split at hstep
            case isTrue hsus => exact Bool.noConfusion (show false = true from hsus)
            case isFalse hsus =>
              cases hstep
              exact ⟨.depWait e (p :: ps), List.mem_singleton_self _, hp⟩
          case zero =>
            split at hstep
            case isTrue hsus =>
              have hasus : asus = true := hsus
              subst hasus
              have hal : aloops = [] := hqa.suspIff.mp rfl
              have hao : aops = [] := hqa.suspOps rfl
              subst hal hao
              cases hstep
              show BlockedOn ((runNextSync (Sys.mk
                [⟨[(1, mA)], [⟨n, .ret oc⟩], false, acur, aall, []⟩,
                 ⟨[(0, mB)], bops, false, bcur, ball, [.depWait e (p :: ps)]⟩]
                (n + 1) st sl) 0).queueAt 1) 0
              rw [runNextSync_pair_zero]
              exact ⟨.depWait e (p :: ps), List.mem_singleton_self _, hp⟩
            case isFalse hsus =>
              cases hstep
              exact ⟨.depWait e (p :: ps), List.mem_singleton_self _, hp⟩
  | startOp i j =>
      rcases i with _ | _ | i2
      case succ.succ => exact Option.noConfusion hstep
      case succ.zero =>
        replace hstep : step (Sys.mk
            [⟨[(1, mA)], aops, asus, acur, aall, aloops⟩,
             ⟨[(0, mB)], bops, false, bcur, ball, [.depWait e (p :: ps)]⟩] n st sl)
            (.startOp 1 j) = some s' := hstep
        rcases j with _ | j1
        · exact Option.noConfusion hstep
        · exact Option.noConfusion hstep
      case zero =>
        simp only [step, queueAt_zero] at hstep
        rcases hget : aloops.get? j with _ | inst
        · rw [hget] at hstep
          exact Option.noConfusion hstep
        · obtain ⟨hq, hj⟩ := get_of_len_le_one hqa.len hget
          rcases inst with ⟨ea, pend2⟩ | ea
          · rcases pend2 with _ | ⟨q, qs2⟩
            · subst hq hj
              obtain ⟨eida, kinda⟩ := ea
              rcases kinda with oca | erra
              · cases hstep
                exact ⟨.depWait e (p :: ps), List.mem_singleton_self _, hp⟩
              · cases hstep
                exact ⟨.depWait e (p :: ps), List.mem_singleton_self _, hp⟩
            · rw [hget] at hstep
              exact Option.noConfusion hstep
          · rw [hget] at hstep
            exact Option.noConfusion hstep
  | complete i j =>
      rcases i with _ | _ | i2
      case succ.succ => exact Option.noConfusion hstep
      case succ.zero =>
        replace hstep : step (Sys.mk
            [⟨[(1, mA)], aops, asus, acur, aall, aloops⟩,
             ⟨[(0, mB)], bops, false, bcur, ball, [.depWait e (p :: ps)]⟩] n st sl)
            (.complete 1 j) = some s' := hstep
        rcases j with _ | j1
        · exact Option.noConfusion hstep
        · exact Option.noConfusion hstep
      case zero => exact Bool.noConfusion (show true = false from hnc)

theorem blocked0_persist_trace {mA mB : DependencyMode} {tr : List Event}
    {s s' : Sys} (hmA : gateTarget mA = .current) (hmB : gateTarget mB = .current)
    (hi : InvM mA mB s) (hall : tr.all evPair = true)
    (hnc : tr.all (fun ev => !isCompleteOn 1 ev) = true)
    (hrun : runTrace s tr = some s') (hb : BlockedOn (s.queueAt 0) 1) :
    BlockedOn (s'.queueAt 0) 1 := by
  induction tr generalizing s with
  | nil =>
      cases hrun
      exact hb
  | cons ev tr ih =>
      simp only [List.all_cons, Bool.and_eq_true] at hall hnc
      simp only [runTrace] at hrun
      rcases hstep : step s ev with _ | s1
      · rw [hstep] at hrun
        exact Option.noConfusion hrun
      · rw [hstep] at hrun
        have hnc1 : isCompleteOn 1 ev = false := by
          cases hh : isCompleteOn 1 ev
          · rfl
          · rw [hh] at hnc
            exact Bool.noConfusion hnc.1
        exact ih (invM_step hmA hmB hi hall.1 hstep) hall.2 hnc.2 hrun
          (blocked0_persist_step hi hall.1 hnc1 hstep hb)

theorem blocked1_persist_trace {mA mB : DependencyMode} {tr : List Event}
    {s s' : Sys} (hmA : gateTarget mA = .current) (hmB : gateTarget mB = .current)
    (hi : InvM mA mB s) (hall : tr.all evPair = true)
    (hnc : tr.all (fun ev => !isCompleteOn 0 ev) = true)
    (hrun : runTrace s tr = some s') (hb : BlockedOn (s.queueAt 1) 0) :
    BlockedOn (s'.queueAt 1) 0 := by
  induction tr generalizing s with
  | nil =>
      cases hrun
      exact hb
  | cons ev tr ih =>
      simp only [List.all_cons, Bool.and_eq_true] at hall hnc
      simp only [runTrace] at hrun
      rcases hstep : step s ev with _ | s1
      · rw [hstep] at hrun
        exact Option.noConfusion hrun
      · rw [hstep] at hrun
        have hnc1 : isCompleteOn 0 ev = false := by
          cases hh : isCompleteOn 0 ev
          · rfl
          · rw [hh] at hnc
            exact Bool.noConfusion hnc.1
        exact ih (invM_step hmA hmB hi hall.1 hstep) hall.2 hnc.2 hrun
          (blocked1_persist_step hi hall.1 hnc1 hstep hb)

theorem inv1_init : Inv1 init1 := by
  unfold Inv1 orderChain settleChain
  decide

theorem inv1_of_reach {s : Sys} (h : Reach init1 evBasic s) : Inv1 s := by
  induction h with
  | refl => exact inv1_init
  | tail hr hok hstep ih => exact inv1_step ih hok hstep

/-! ### Claim theorems -/

/-- C1, amended.  For a queue driven only by `enqueue` calls and the event
loop (no `suspend`/`resume`/`clear` calls while work is outstanding — the
counterexample shows the unrestricted claim fails), in every reachable state:
operations have started strictly in submission order, their promises have
settled strictly in submission order, and at most one operation of the queue
is in flight. -/
theorem c1_amended_fifo_and_single_flight (s : Sys) (h : Reach init1 evBasic s) :
    List.Pairwise (· < ·) (startedEids s) ∧
    List.Pairwise (· < ·) (settledEids s) ∧
    runningCount s ≤ 1 := by
  obtain ⟨hlen, -, hloopLen, -, -, hpA, hpB, -, -⟩ := inv1_of_reach h
  obtain ⟨qs, n, st, sl⟩ := s
  obtain ⟨q, rfl⟩ : ∃ q, qs = [q] := List.length_eq_one.mp hlen
  refine ⟨?_, ?_, ?_⟩
  · have hpA' : List.Pairwise (· < ·)
        ((startedEids (Sys.mk [q] n st sl) ++ notStartedEids q) ++ opsEids q) := hpA
    exact (List.pairwise_append.mp (List.pairwise_append.mp hpA').1).1
  · have hpB' : List.Pairwise (· < ·)
        (((settledEids (Sys.mk [q] n st sl) ++ runningEids q) ++ notStartedEids q) ++
          opsEids q) := hpB
    exact (List.pairwise_append.mp
      (List.pairwise_append.mp (List.pairwise_append.mp hpB').1).1).1
  · show ((q.loops.filter LoopInst.isRunningB).length + 0) ≤ 1
    rw [Nat.add_zero]
    exact Nat.le_trans (List.length_filter_le _ _) hloopLen

/-- C1, witness for the amended theorem, at the state with one operation in
flight reached by one `enqueue` and its start. -/
theorem c1_amended_fifo_and_single_flight_witness : runningCount oneRunning ≤ 1 :=
  (c1_amended_fifo_and_single_flight oneRunning
    (@reach_of_runTrace evBasic [.enqueue 0 (.ret (.ok 3)), .startOp 0 0] init1
      oneRunning (by decide) (by decide))).2.2

/-- C5, amended.  Both gates of a freshly constructed queue are signalled, and
for a queue driven only by `enqueue` and the event loop (the counterexample
shows external `suspend`/`resume` break the unrestricted claim), in every
reachable state the all gate is open only when the pending list is empty and
no live `runNext` invocation (in particular no in-flight operation) exists. -/
theorem c5_amended_all_gate_invariant (s : Sys) (h : Reach init1 evBasic s) :
    mkQueue.currentSig = true ∧ mkQueue.allSig = true ∧
    ((s.queueAt 0).allSig = true →
      (s.queueAt 0).operations = [] ∧ (s.queueAt 0).loops = []) := by
  obtain ⟨-, -, -, -, hallSig, -, -, -, -⟩ := inv1_of_reach h
  exact ⟨rfl, rfl, fun ha => ⟨(hallSig ha).1, (hallSig ha).2.1⟩⟩

/-- C5, witness for the amended theorem, at the initial state whose all gate
is open. -/
theorem c5_amended_all_gate_invariant_witness :
    (init1.queueAt 0).operations = [] ∧ (init1.queueAt 0).loops = [] :=
  (c5_amended_all_gate_invariant init1 Reach.refl).2.2 rfl

/-- C4, amended.  `suspend()` only sets the `_suspended` flag: it never aborts
the in-flight operation and never discards pending entries (first conjunct:
the stepped state differs from the old one only in that flag).  However,
`runNext` never consults the flag, so suspension by itself does not prevent
the next pending entry from starting once the current operation finishes
(see the counterexample).  What actually stops the loop after `clear()` is
the emptied pending list: `clear` wipes the list and sets the flag (second
conjunct), and when the in-flight operation of a queue with an empty pending
list completes, the run loop finds no next entry, signals the all gate and
suspends without starting anything (third conjunct). -/
theorem c4_amended_suspend_flag_clear_empties :
    (∀ (s : Sys) (i : Nat), i < s.queues.length →
      step s (.suspend i) =
        some (s.setQueue i { s.queueAt i with suspended := true })) ∧
    (∀ (s : Sys) (i : Nat), i < s.queues.length →
      step s (.clear i) =
        some (s.setQueue i { s.queueAt i with operations := [], suspended := true })) ∧
    (∀ (qd : List (Nat × DependencyMode)) (qsus qcur qall : Bool)
        (qloops : List LoopInst) (n : Nat) (st : List (Nat × Nat))
        (sl : List (Nat × Except Nat Nat)) (j : Nat) (e : Entry) (oc : Except Nat Nat),
      qloops.get? j = some (.running e) → e.kind = .ret oc →
      step (Sys.mk [⟨qd, [], qsus, qcur, qall, qloops⟩] n st sl) (.complete 0 j) =
        some (Sys.mk [⟨qd, [], true, true, true,
          ((qloops.eraseIdx j).map (clearWait 0 .current)).map (clearWait 0 .all)⟩]
          n st (sl ++ [(e.eid, oc)]))) := by
  refine ⟨?_, ?_, ?_⟩
  · intro s i hlt
    simp only [step, if_pos hlt]
  · intro s i hlt
    simp only [step, if_pos hlt]
  · intro qd qsus qcur qall qloops n st sl j e oc hget hk
    simp only [step, queueAt_zero]
    rw [hget]
    dsimp only
    rw [hk]
    rfl

/-- C4, witness for the amended theorem: an external `suspend()` on a queue
with one in-flight operation only flips the flag, and completing the
in-flight operation of a wiped queue resolves it, signals both gates and
suspends without starting anything. -/
theorem c4_amended_suspend_flag_clear_empties_witness :
    step oneRunning (.suspend 0) =
      some (oneRunning.setQueue 0 { oneRunning.queueAt 0 with suspended := true }) ∧
    step (Sys.mk [⟨[], [], false, false, false, [.running ⟨0, .ret (.ok 7)⟩]⟩]
        1 [(0, 0)] []) (.complete 0 0) =
      some (Sys.mk [⟨[], [], true, true, true, []⟩] 1 [(0, 0)] [(0, .ok 7)]) :=
  ⟨c4_amended_suspend_flag_clear_empties.1 oneRunning 0 (by decide),
   c4_amended_suspend_flag_clear_empties.2.2 [] false false false
     [.running ⟨0, .ret (.ok 7)⟩] 1 [(0, 0)] [] 0 ⟨0, .ret (.ok 7)⟩ (.ok 7) rfl rfl⟩

/-- C6.  `clear()` discards exactly the pending entries and suspends: the
stepped state keeps the live `runNext` invocations — the in-flight operation
is unaffected — and only wipes the pending list and sets the flag (first
conjunct).  A pending entry discarded this way never starts and its promise
never settles in any continuation of the system (second conjunct).  The
in-flight operation of the cleared queue still runs to completion: its
completion resolves its own promise with its outcome and signals the current
and all gates exactly as on an undisturbed drain (third conjunct). -/
theorem c6_clear_discards_only_pending :
    (∀ (s : Sys) (i : Nat), i < s.queues.length →
      step s (.clear i) =
        some (s.setQueue i { s.queueAt i with operations := [], suspended := true })) ∧
    (∀ (q : QueueState) (n : Nat) (st : List (Nat × Nat))
        (sl : List (Nat × Except Nat Nat)) (e : Entry),
      e ∈ q.operations → e.eid < n →
      e.eid ∉ st.map Prod.snd → e.eid ∉ sl.map Prod.fst → e.eid ∉ loopEids q →
      ∀ (tr : List Event) (s2 : Sys),
        runTrace (Sys.mk [{ q with operations := [], suspended := true }] n st sl) tr =
          some s2 →
        e.eid ∉ startedEids s2 ∧ e.eid ∉ settledEids s2) ∧
    (∀ (qd : List (Nat × DependencyMode)) (qcur qall : Bool)
        (qloops : List LoopInst) (n : Nat) (st : List (Nat × Nat))
        (sl : List (Nat × Except Nat Nat)) (j : Nat) (e2 : Entry) (oc : Except Nat Nat),
      qloops.get? j = some (.running e2) → e2.kind = .ret oc →
      step (Sys.mk [⟨qd, [], true, qcur, qall, qloops⟩] n st sl) (.complete 0 j) =
        some (Sys.mk [⟨qd, [], true, true, true,
          ((qloops.eraseIdx j).map (clearWait 0 .current)).map (clearWait 0 .all)⟩]
          n st (sl ++ [(e2.eid, oc)]))) := by
  refine ⟨?_, ?_, ?_⟩
  · intro s i hlt
    simp only [step, if_pos hlt]
  · intro q n st sl e hin hlt hst hsl hlp tr s2 hrun
    have habs : Absent e.eid
        (Sys.mk [{ q with operations := [], suspended := true }] n st sl) := by
      refine ⟨⟨hlt, hsl, ?_⟩, hst⟩
      intro q' hq'
      have hq2 : q' = { q with operations := [], suspended := true } := by
        simpa using hq'
      subst hq2
      constructor
      · show e.eid ∉ opsEids ({ q with operations := [], suspended := true })
        simp [opsEids]
      · exact hlp
    have hres := absent_runTrace habs hrun
    exact ⟨hres.2, hres.1.2.1⟩
  · intro qd qcur qall qloops n st sl j e2 oc hget hk
    simp only [step, queueAt_zero]
    rw [hget]
    dsimp only
    rw [hk]
    rfl

/-- C6, witness: clearing a queue with entry 0 in flight and entry 1 pending
wipes only the pending list; afterwards the in-flight entry still completes,
resolves and signals, while the discarded entry 1 never starts nor settles. -/
theorem c6_clear_discards_only_pending_witness :
    step (Sys.mk [clearScene] 2 [(0, 0)] []) (.clear 0) =
      some (Sys.mk [{ clearScene with operations := [], suspended := true }]
        2 [(0, 0)] []) ∧
    (1 ∉ startedEids clearSceneDone ∧ 1 ∉ settledEids clearSceneDone) ∧
    step (Sys.mk [{ clearScene with operations := [], suspended := true }]
        2 [(0, 0)] []) (.complete 0 0) = some clearSceneDone :=
  ⟨c6_clear_discards_only_pending.1 (Sys.mk [clearScene] 2 [(0, 0)] []) 0 (by decide),
   c6_clear_discards_only_pending.2.1 clearScene 2 [(0, 0)] [] ⟨1, .ret (.ok 1)⟩
     (by decide) (by decide) (by decide) (by decide) (by decide)
     [.complete 0 0] clearSceneDone (by decide),
   c6_clear_discards_only_pending.2.2 [] false false
     [.running ⟨0, .ret (.ok 0)⟩] 2 [(0, 0)] [] 0 ⟨0, .ret (.ok 0)⟩ (.ok 0) rfl rfl⟩

/-- C7.  Dependency handling, in five parts: (1) the wait target per mode is
the dependency's all gate for `WaitAll` and its current gate for
`WaitCurrent` and `Interleave`; (2) the waits registered for one run-loop
step are exactly one wait per declared dependency at its target gate, except
dependencies whose gate is already open, which need no wait; (3) dequeuing an
entry registers precisely those waits over the queue's dependency map, all
together in one `Promise.all`; (4) an operation is invoked only from a ready
invocation, i.e. only once every registered wait has resolved; (5) a single
`addDependency(other, Interleave)` call registers the dependency in both
directions: `other` in this queue's map and this queue in `other`'s map,
both with mode `Interleave`. -/
theorem c7_dependency_waits_and_interleave_registration :
    (gateTarget .waitAll = .all ∧ gateTarget .waitCurrent = .current ∧
      gateTarget .interleave = .current) ∧
    (∀ (s : Sys) (deps : List (Nat × DependencyMode)) (jq : Nat) (g : GateKind),
      (jq, g) ∈ depPending s deps ↔
        (gateOpen s jq g = false ∧ ∃ m, (jq, m) ∈ deps ∧ gateTarget m = g)) ∧
    (∀ (s : Sys) (i : Nat) (e : Entry) (rest : List Entry),
      (s.queueAt i).operations = e :: rest →
      runNextSync s i =
        (dequeue1 s i rest).setQueue i
          { (dequeue1 s i rest).queueAt i with
              loops := ((dequeue1 s i rest).queueAt i).loops ++
                [.depWait e (depPending (dequeue1 s i rest)
                  (s.queueAt i).dependencies)] }) ∧
    (∀ (s s' : Sys) (i j : Nat), step s (.startOp i j) = some s' →
      isReady ((s.queueAt i).loops.get? j) = true) ∧
    (∀ (s s' : Sys) (i j : Nat), step s (.addDep i j .interleave) = some s' →
      (j, DependencyMode.interleave) ∈ (s'.queueAt i).dependencies ∧
      (i, DependencyMode.interleave) ∈ (s'.queueAt j).dependencies) := by
  refine ⟨⟨rfl, rfl, rfl⟩, depPending_mem_iff, ?_, ?_, ?_⟩
  · intro s i e rest h
    exact runNextSync_cons h
  · intro s s' i j hstep
    simp only [step] at hstep
    rcases hget : (s.queueAt i).loops.get? j with _ | inst
    · rw [hget] at hstep
      exact Option.noConfusion hstep
    · rcases inst with ⟨e, pending⟩ | e
      · rcases pending with _ | ⟨p, ps⟩
        · rfl
        · rw [hget] at hstep
          exact Option.noConfusion hstep
      · rw [hget] at hstep
        exact Option.noConfusion hstep
  · intro s s' i j hstep
    simp only [step] at hstep
    split at hstep
    case isFalse => exact Option.noConfusion hstep
    case isTrue hlt =>
      rw [if_pos trivial] at hstep
      cases hstep
      constructor
      · by_cases hij : i = j
        · subst hij
          rw [queueAt_setQueue_self _ (by rw [setQueue_length]; exact hlt.1)]
          exact mem_setMode _ _ _
        · rw [queueAt_setQueue_ne _ (fun hh => hij hh.symm)]
          rw [queueAt_setQueue_self _ hlt.1]
          exact mem_setMode _ _ _
      · rw [queueAt_setQueue_self _ (by rw [setQueue_length]; exact hlt.2)]
        exact mem_setMode _ _ _

/-- C7, witness: one Interleave call from queue 0 on queue 1 leaves the mode
registered in both dependency maps, and a `startOp` that succeeded came from
a ready invocation. -/
theorem c7_dependency_waits_and_interleave_registration_witness :
    ((1, DependencyMode.interleave) ∈
        ((mutualInit .interleave .interleave).queueAt 0).dependencies ∧
      (0, DependencyMode.interleave) ∈
        ((mutualInit .interleave .interleave).queueAt 1).dependencies) ∧
    isReady ((oneReady.queueAt 0).loops.get? 0) = true :=
  ⟨c7_dependency_waits_and_interleave_registration.2.2.2.2 init2
      (mutualInit .interleave .interleave) 0 1 (by decide),
   c7_dependency_waits_and_interleave_registration.2.2.2.1 oneReady oneRunning 0 0
      (by decide)⟩

/-- C8.  Same-tick shortcut (gate behaviour spec-modelled from sections 3 and
4.3): a wait on a gate that is already signalled is never registered — the
waiter passes through with no event needed (first conjunct).  Consequently an
`enqueue` on an idle queue whose dependencies' target gates are all open
leaves, within the caller's own synchronous cascade, a ready invocation: the
operation can start without any intervening gate signal or other queue
event (second conjunct). -/
theorem c8_open_gate_wait_passes_immediately :
    (∀ (s : Sys) (jq : Nat) (g : GateKind) (deps : List (Nat × DependencyMode)),
      gateOpen s jq g = true → (jq, g) ∉ depPending s deps) ∧
    (∀ (s s' : Sys) (i : Nat) (k : OpKind),
      i < s.queues.length →
      (s.queueAt i).suspended = true →
      (s.queueAt i).operations = [] →
      (s.queueAt i).loops = [] →
      (∀ p ∈ (s.queueAt i).dependencies,
        p.1 ≠ i ∧ gateOpen s p.1 (gateTarget p.2) = true) →
      step s (.enqueue i k) = some s' →
      (s'.queueAt i).loops = [.depWait ⟨s.nextId, k⟩ []] ∧
      (step s' (.startOp i 0)).isSome = true) := by
  constructor
  · intro s jq g deps hopen hmem
    have hfalse := ((depPending_mem_iff s deps jq g).mp hmem).1
    rw [hopen] at hfalse
    exact Bool.noConfusion hfalse
  · intro s s' i k hlt hsus hops hloops hdeps hstep
    rw [step_enqueue_susp hlt hsus] at hstep
    cases hstep
    have hqa := enqKick_queueAt k hlt
    refine ready_after_kick ?_ ?_ ?_ ?_
    · rw [enqKick_length]
      exact hlt
    · rw [hqa]
      show (s.queueAt i).operations ++ [⟨s.nextId, k⟩] = [⟨s.nextId, k⟩]
      rw [hops]
      rfl
    · rw [hqa]
      exact hloops
    · intro p hp
      rw [hqa] at hp
      have hp2 : p ∈ (s.queueAt i).dependencies := hp
      obtain ⟨hne, hopen⟩ := hdeps p hp2
      refine ⟨hne, ?_⟩
      rw [enqKick_gateOpen_ne k _ hne]
      exact hopen

/-- C8, witness: enqueueing on the idle dependent queue 0 while queue 1's
current gate is open leaves a ready invocation — the operation can start with
no intervening event. -/
theorem c8_open_gate_wait_passes_immediately_witness :
    (depSceneKicked.queueAt 0).loops = [.depWait ⟨0, .ret (.ok 5)⟩ []] ∧
    (step depSceneKicked (.startOp 0 0)).isSome = true :=
  c8_open_gate_wait_passes_immediately.2 depScene depSceneKicked 0 (.ret (.ok 5))
    (by decide) (by decide) (by decide) (by decide) (by decide) (by decide)

/-- C10.  An entry discarded by `clear()` before it started is never settled
afterwards: its `enqueue` promise is neither resolved nor rejected in any
continuation of the system, so a caller awaiting that promise blocks forever
and receives no notification from `clear()`. -/
theorem c10_cleared_entry_promise_never_settles
    (q : QueueState) (n : Nat) (st : List (Nat × Nat))
    (sl : List (Nat × Except Nat Nat)) (e : Entry)
    (hin : e ∈ q.operations) (hlt : e.eid < n)
    (hsl : e.eid ∉ sl.map Prod.fst) (hlp : e.eid ∉ loopEids q) :
    ∀ (tr : List Event) (s2 : Sys),
      runTrace (Sys.mk [{ q with operations := [], suspended := true }] n st sl) tr =
        some s2 →
      e.eid ∉ settledEids s2 := by
  intro tr s2 hrun
  have hvan : Vanished e.eid
      (Sys.mk [{ q with operations := [], suspended := true }] n st sl) := by
    refine ⟨hlt, hsl, ?_⟩
    intro q' hq'
    have hq2 : q' = { q with operations := [], suspended := true } := by
      simpa using hq'
    subst hq2
    constructor
    · show e.eid ∉ opsEids ({ q with operations := [], suspended := true })
      simp [opsEids]
    · exact hlp
  exact (vanished_runTrace hvan hrun).2.1

/-- C10, witness: the discarded entry 1 of the clear scene has not settled
after the in-flight entry 0 completed. -/
theorem c10_cleared_entry_promise_never_settles_witness :
    1 ∉ settledEids clearSceneDone :=
  c10_cleared_entry_promise_never_settles clearScene 2 [(0, 0)] [] ⟨1, .ret (.ok 1)⟩
    (by decide) (by decide) (by decide) (by decide)
    [.complete 0 0] clearSceneDone (by decide)

/-- C1, counterexample.  The claim quantifies over arbitrary interleavings of
`enqueue`, `clear`, `suspend` and `resume` calls.  Concretely: enqueue an
operation, let it start, call `suspend()` while it is in flight, then enqueue
a second operation.  `push` calls `resume()`, which finds the suspended flag
set, clears it and kicks a second `runNext` loop; the second operation starts
while the first is still in flight, so two operations of the same queue are
in flight at once. -/
theorem c1_two_in_flight_counterexample :
    runningAfter init1
      [.enqueue 0 (.ret (.ok 0)), .startOp 0 0, .suspend 0,
       .enqueue 0 (.ret (.ok 1)), .startOp 0 1] = some 2 := by
  decide

/-- C4, counterexample.  Enqueue two operations, let the first start, call
`suspend()` while it is in flight, then let it complete.  `runNext` never
consults `_suspended`: it shifts and starts the second pending entry anyway,
so after the trace both entries have started (start log `[(0,0), (0,1)]`)
even though the queue is suspended throughout. -/
theorem c4_suspend_does_not_stop_loop_counterexample :
    viewAfter init1
      [.enqueue 0 (.ret (.ok 0)), .enqueue 0 (.ret (.ok 1)), .startOp 0 0,
       .suspend 0, .complete 0 0, .startOp 0 0] 0 =
    some ({ opsIds := [], susp := true, curSig := false, allSigView := false,
            loopCount := 1, runCount := 1 },
          [(0, 0), (0, 1)], [(0, .ok 0)]) := by
  decide

/-- C5, counterexample.  Enqueue an operation, let it start, call `suspend()`
and then `resume()` while it is in flight.  `resume()` kicks a second
`runNext`, which finds the pending list empty and signals the all gate —
while the operation is still in flight.  The resulting state has the all
gate open and one operation running, refuting the claimed invariant. -/
theorem c5_all_gate_open_while_running_counterexample :
    (runTrace init1
      [.enqueue 0 (.ret (.ok 0)), .startOp 0 0, .suspend 0, .resume 0]).map
        (queueView · 0) =
    some { opsIds := [], susp := true, curSig := false, allSigView := true,
           loopCount := 1, runCount := 1 } := by
  decide

/-- C2, code bug, evaluation at the failing input.  Enqueue an operation that
throws synchronously (`throwSync 7`) and let the run loop invoke it.  In
`run`, `Promise.resolve(operation())` evaluates `operation()` before any
`.then(resolve, reject)` handler is attached, so the synchronous exception
rejects `run(entry)`'s promise instead of being passed to `reject`;
`await this.run(entry)` rethrows inside `runNext`, whose promise nobody
handles.  Result: the settlement log stays empty (the `enqueue` promise is
never rejected — the claim says it fails with exactly the thrown error), the
loop dies (no live invocation), the gates stay closed and the queue is left
unsuspended. -/
theorem c2_sync_throw_failing_input :
    viewAfter init1 [.enqueue 0 (.throwSync 7), .startOp 0 0] 0 =
      some ({ opsIds := [], susp := false, curSig := false, allSigView := false,
              loopCount := 0, runCount := 0 },
            [(0, 0)], []) ∧
    runTrace init1 [.enqueue 0 (.throwSync 7), .startOp 0 0] = some deadAfterThrow ∧
    (∀ (tr : List Event) (s2 : Sys), runTrace deadAfterThrow tr = some s2 →
      0 ∉ settledEids s2) := by
  refine ⟨by decide, by decide, ?_⟩
  intro tr s2 hrun
  have hv : Vanished 0 deadAfterThrow := by
    refine ⟨by decide, by decide, ?_⟩
    intro q' hq'
    have hq2 : q' = ⟨[], [], false, false, false, []⟩ := by
      simpa [deadAfterThrow] using hq'
    subst hq2
    exact ⟨by decide, by decide⟩
  exact (vanished_runTrace hv hrun).2.1

/-- C2, witness: with the empty continuation, the throwing entry's promise
remains unsettled. -/
theorem c2_sync_throw_failing_input_witness : 0 ∉ settledEids deadAfterThrow :=
  c2_sync_throw_failing_input.2.2 [] deadAfterThrow rfl

/-- C3, code bug, evaluation at the failing input.  Enqueue a synchronously
throwing operation followed by a normal one and let the first be invoked.
The claim says the run loop is not aborted and the next pending entry is
executed exactly as on success; in the code the rethrown exception kills the
`runNext` chain: afterwards no invocation is live, entry 1 is still pending,
only entry 0 ever started, the current gate was never signalled, and since
`_suspended` is still `false` a later `enqueue`'s `resume()` is a no-op, so
entry 1 can never start. -/
theorem c3_sync_throw_aborts_loop_failing_input :
    viewAfter init1
      [.enqueue 0 (.throwSync 5), .enqueue 0 (.ret (.ok 1)), .startOp 0 0] 0 =
      some ({ opsIds := [1], susp := false, curSig := false, allSigView := false,
              loopCount := 0, runCount := 0 },
            [(0, 0)], []) ∧
    runTrace init1 [.enqueue 0 (.throwSync 5), .enqueue 0 (.ret (.ok 1)), .startOp 0 0] =
      some deadWithPending ∧
    (∀ (tr : List Event) (s2 : Sys), tr.all evBasic = true →
      runTrace deadWithPending tr = some s2 → 1 ∉ startedEids s2) := by
  refine ⟨by decide, by decide, ?_⟩
  intro tr s2 hall hrun
  have hd : DeadQ [(0, 0)] deadWithPending := ⟨rfl, rfl, rfl, rfl⟩
  have hd2 := deadQ_runTrace hd hall hrun
  have hst : s2.started = [(0, 0)] := hd2.2.2.2
  show (1 : Nat) ∉ s2.started.map Prod.snd
  rw [hst]
  decide

/-- C3, witness: even after a further enqueue on the dead queue, the pending
entry 1 has still not started. -/
theorem c3_sync_throw_aborts_loop_failing_input_witness :
    1 ∉ startedEids (Sys.mk
      [⟨[], [⟨1, .ret (.ok 1)⟩, ⟨2, .ret (.ok 9)⟩], false, false, false, []⟩]
      3 [(0, 0)] []) :=
  c3_sync_throw_aborts_loop_failing_input.2.2 [.enqueue 0 (.ret (.ok 9))]
    (Sys.mk [⟨[], [⟨1, .ret (.ok 1)⟩, ⟨2, .ret (.ok 9)⟩], false, false, false, []⟩]
      3 [(0, 0)] [])
    (by decide) (by decide)

/-- C9: for two queues related by mutual `WaitCurrent` dependencies or by a
single `Interleave` registration (either way each queue's sole dependency
targets the other's current gate, `gateTarget = .current`), in every state
reachable from the fresh pair by enqueue calls and the event loop, for any
interleaving of enqueue timing: (no deadlock) whenever work is outstanding
some event-loop step is enabled; (never mutually stuck) the two queues are
never blocked on each other's current gate simultaneously; and (lock-step
hand-off) a queue whose dequeued operation waits on the other queue's current
gate finds the other queue mid-cycle with that gate reset, cannot start any
operation, and remains so across every continuation containing no completion
on the other queue — only the hand-off through the other queue's current
gate releases it. -/
theorem c9_mutual_current_lockstep_no_deadlock
    {mA mB : DependencyMode} {s : Sys}
    (hmA : gateTarget mA = GateKind.current) (hmB : gateTarget mB = GateKind.current)
    (hreach : Reach (mutualInit mA mB) evPair s) :
    (hasWork s = true → canStep s = true) ∧
    ¬(BlockedOn (s.queueAt 0) 1 ∧ BlockedOn (s.queueAt 1) 0) ∧
    (BlockedOn (s.queueAt 0) 1 →
      (s.queueAt 1).currentSig = false ∧ (s.queueAt 1).loops ≠ [] ∧
      (∀ j, step s (.startOp 0 j) = none) ∧
      ∀ (tr : List Event) (s2 : Sys), tr.all evPair = true →
        tr.all (fun ev => !(isCompleteOn 1 ev)) = true →
        runTrace s tr = some s2 →
        BlockedOn (s2.queueAt 0) 1 ∧ ∀ j, step s2 (.startOp 0 j) = none) ∧
    (BlockedOn (s.queueAt 1) 0 →
      (s.queueAt 0).currentSig = false ∧ (s.queueAt 0).loops ≠ [] ∧
      (∀ j, step s (.startOp 1 j) = none) ∧
      ∀ (tr : List Event) (s2 : Sys), tr.all evPair = true →
        tr.all (fun ev => !(isCompleteOn 0 ev)) = true →
        runTrace s tr = some s2 →
        BlockedOn (s2.queueAt 1) 0 ∧ ∀ j, step s2 (.startOp 1 j) = none) := by
  have hi := invM_of_reach hmA hmB hreach
  refine ⟨invM_progress hi, hi.j3, ?_, ?_⟩
  · intro hb
    refine ⟨(hi.j5a hb).1, (hi.j5a hb).2, blocked0_no_start hi hb, ?_⟩
    intro tr s2 hall hnc hrun
    have hb2 := blocked0_persist_trace hmA hmB hi hall hnc hrun hb
    have hi2 : InvM mA mB s2 := invM_of_reach hmA hmB
      (reach_trans hreach (reach_of_runTrace hall hrun))
    exact ⟨hb2, blocked0_no_start hi2 hb2⟩
  · intro hb
    refine ⟨(hi.j5b hb).1, (hi.j5b hb).2, blocked1_no_start hi hb, ?_⟩
    intro tr s2 hall hnc hrun
    have hb2 := blocked1_persist_trace hmA hmB hi hall hnc hrun hb
    have hi2 : InvM mA mB s2 := invM_of_reach hmA hmB
      (reach_trans hreach (reach_of_runTrace hall hrun))
    exact ⟨hb2, blocked1_no_start hi2 hb2⟩

/-- C9, witness: the lock-step/no-deadlock theorem applied to the mutual
WaitCurrent pair after one enqueue on each queue — a reachable state with
outstanding work where queue 1 is blocked on queue 0's current gate. -/
theorem c9_mutual_current_lockstep_no_deadlock_witness :
    (hasWork mutualKicked = true → canStep mutualKicked = true) ∧
    ¬(BlockedOn (mutualKicked.queueAt 0) 1 ∧ BlockedOn (mutualKicked.queueAt 1) 0) ∧
    (BlockedOn (mutualKicked.queueAt 0) 1 →
      (mutualKicked.queueAt 1).currentSig = false ∧
      (mutualKicked.queueAt 1).loops ≠ [] ∧
      (∀ j, step mutualKicked (.startOp 0 j) = none) ∧
      ∀ (tr : List Event) (s2 : Sys), tr.all evPair = true →
        tr.all (fun ev => !(isCompleteOn 1 ev)) = true →
        runTrace mutualKicked tr = some s2 →
        BlockedOn (s2.queueAt 0) 1 ∧ ∀ j, step s2 (.startOp 0 j) = none) ∧
    (BlockedOn (mutualKicked.queueAt 1) 0 →
      (mutualKicked.queueAt 0).currentSig = false ∧
      (mutualKicked.queueAt 0).loops ≠ [] ∧
      (∀ j, step mutualKicked (.startOp 1 j) = none) ∧
      ∀ (tr : List Event) (s2 : Sys), tr.all evPair = true →
        tr.all (fun ev => !(isCompleteOn 0 ev)) = true →
        runTrace mutualKicked tr = some s2 →
        BlockedOn (s2.queueAt 1) 0 ∧ ∀ j, step s2 (.startOp 1 j) = none) :=
  @c9_mutual_current_lockstep_no_deadlock DependencyMode.waitCurrent
    DependencyMode.waitCurrent mutualKicked rfl rfl
    (reach_of_runTrace (by decide)
      (show runTrace (mutualInit .waitCurrent .waitCurrent)
        [.enqueue 0 (.ret (.ok 5)), .enqueue 1 (.ret (.ok 7))] = some mutualKicked
        by decide))

end OpQueue
